import Mathlib

/-!
Verification of the ingestion-worker repository.

This file gives a shallow embedding, in Lean, of the parts of the
ingestion worker that the verified statements are about:

* the rate deriver of `lib/ingest.ts` (packet-per-second derivation inside
  `runIngestionCycle`) and of `lib/storage-analytics.ts`
  (`bigIntToNumberSafe`, `computeBytesPerSecond`);
* the threshold cleanup engine of `lib/cleanup.ts`
  (`checkAndCleanupIfNeeded`, `performCleanup`, `findNthOldestDate`);
* the snapshot computer of `lib/network-metrics.ts`
  (`percentile`, the paged peer read and the scalar aggregates of
  `computeNetworkMetrics`);
* the JSON-RPC result handling of `lib/prpc-client.ts` (`prpcCall`);
* the ingestion cycle of `lib/ingest.ts` (`runIngestionCycle`): stale-backoff
  reset, gossip fan-out, eligibility/backoff decisions, task deduplication,
  probe fan-out and the summary counters.

Modelling conventions:

* JavaScript timestamps (`Date`, milliseconds since epoch) are `Int`.
* JavaScript `BigInt` columns are `Int`; `number` (float) results of the
  rate derivations are exact rationals `ℚ` (the code divides an exactly
  represented integer by a small integer, and the claims are about which
  values are null and which formula is computed, not about the final
  float rounding step).
* `Math.floor(deltaMs / 1000)` on float values is `Int.fdiv deltaMs 1000`:
  for every |deltaMs| < 2^53 the float division by 1000 followed by
  `Math.floor` equals exact floor division.
* Database state is explicit: tables are Lean lists, every store write
  succeeds (the claims under verification are about the success-path
  semantics; store errors only make the cycle skip a peer).
* Concurrent fan-out (`Promise.allSettled` over seeds and over pods, and
  the sequential batches of 50 probe tasks) is modelled as a sequential
  left-to-right pass: each peer is touched by at most one gossip branch of
  a given seed at a time and, after deduplication, by at most one probe
  branch, so the sequential pass computes the same per-peer results.
-/

namespace IngestionWorker

/-! ## Data model (schema rows, RPC payload shapes) -/

/-- A `Pnode` row: persistent identity of a peer. -/
structure Pnode where
  id : Nat
  pubkey : String
  isPublic : Bool
  failureCount : Nat
  lastStatsAttemptAt : Option Int
  lastStatsSuccessAt : Option Int
  nextStatsAllowedAt : Option Int
deriving DecidableEq

/-- A `PnodeGossipObservation` row. -/
structure GossipRow where
  seedBaseUrl : String
  pnodeId : Nat
  address : String
  version : Option String
  lastSeenTimestamp : Option Int
  observedAt : Int
  storageCommitted : Option Int
  storageUsed : Option Int
  storageUsagePercent : Option ℚ
  isPublic : Option Bool
deriving DecidableEq

/-- A `PnodeStatsSample` row. -/
structure StatsRow where
  pnodeId : Nat
  seedBaseUrl : String
  timestamp : Int
  uptimeSeconds : Option Int
  packetsInPerSec : Option ℚ
  packetsOutPerSec : Option ℚ
  packetsReceivedCumulative : Option Int
  packetsSentCumulative : Option Int
  totalBytes : Option Int
  activeStreams : Option Int
deriving DecidableEq

/-- A `PodInfo` record as returned by `get-pods-with-stats`
(`lib/prpc-client.ts`). -/
structure PodInfo where
  address : String
  version : Option String
  last_seen_timestamp : Option Int
  pubkey : Option String
  storage_committed : Option Int
  storage_used : Option Int
  storage_usage_percent : Option ℚ
  uptime : Option Int
  is_public : Option Bool
deriving DecidableEq

/-- The shape-polymorphic `getPods` result: either a bare array or an
object with an optional `pods` array. -/
inductive GetPodsResult where
  | arr (pods : List PodInfo)
  | obj (pods : Option (List PodInfo))
deriving DecidableEq

/-- A `get-stats` result (`lib/prpc-client.ts`), restricted to the fields
`runIngestionCycle` reads. -/
structure GetStatsResult where
  active_streams : Option Int
  packets_received : Option Int
  packets_sent : Option Int
  total_bytes : Option Int
  uptime : Option Int
deriving DecidableEq

/-- The database state seen by the ingestion cycle. -/
structure DB where
  pnodes : List Pnode
  gossip : List GossipRow
  samples : List StatsRow
deriving DecidableEq

/-! ## Rate deriver -/

/-- The packets-per-second derivation inlined in `runIngestionCycle`
(`lib/ingest.ts`): given the most recent prior sample (if any), the new
cumulative counters and the new sample's wall clock, produce
`(packetsInPerSec, packetsOutPerSec)`.  Both rates stay `null` unless the
prior sample exists and all four cumulative counters are non-null;
`deltaSeconds` is `Math.floor((tNew - prior.timestamp) / 1000)`; each rate
is computed only when `deltaSeconds > 5` and its own delta is
non-negative. -/
def computePacketRates (prev : Option StatsRow)
    (packetsReceived packetsSent : Option Int) (tNew : Int) :
    Option ℚ × Option ℚ :=
  match prev, packetsReceived, packetsSent with
  | some pv, some pr, some ps =>
    match pv.packetsReceivedCumulative, pv.packetsSentCumulative with
    | some ppr, some pps =>
      let deltaMs := tNew - pv.timestamp
      let deltaSeconds := Int.fdiv deltaMs 1000
      if 5 < deltaSeconds then
        let deltaPacketsReceived := pr - ppr
        let deltaPacketsSent := ps - pps
        ( if 0 ≤ deltaPacketsReceived then
            some ((deltaPacketsReceived : ℚ) / (deltaSeconds : ℚ))
          else none,
          if 0 ≤ deltaPacketsSent then
            some ((deltaPacketsSent : ℚ) / (deltaSeconds : ℚ))
          else none )
      else (none, none)
    | _, _ => (none, none)
  | _, _, _ => (none, none)

/-- `Number.MAX_SAFE_INTEGER` = 2^53 - 1. -/
def maxSafeInteger : Int := 9007199254740991

/-- `bigIntToNumberSafe` from `lib/storage-analytics.ts`: safe
BigInt-to-number conversion, clamping values above `MAX_SAFE_INTEGER` to
`MAX_SAFE_INTEGER` and negative values to 0. -/
def bigIntToNumberSafe (value : Option Int) : Option Int :=
  match value with
  | none => none
  | some v =>
    if maxSafeInteger < v then some maxSafeInteger
    else if v < 0 then some 0
    else some v

/-- The result record of `computeBytesPerSecond`. -/
structure BpsResult where
  deltaBytes : Option Int
  deltaSeconds : Option Int
  bytesPerSecond : Option ℚ
deriving DecidableEq

/-- `computeBytesPerSecond` from `lib/storage-analytics.ts`.  JavaScript
truthiness: `!latest.totalBytes` is true for `null` and for `0n`, so a
zero counter is treated like a missing one; `latest.timestamp` is a
`Date` object, which is always truthy, so that conjunct never fails. -/
def computeBytesPerSecond (prev : Option StatsRow) (latest : StatsRow) :
    BpsResult :=
  match latest.totalBytes with
  | none => ⟨none, none, none⟩
  | some ltb =>
    if ltb = 0 then ⟨none, none, none⟩
    else
      match prev with
      | none => ⟨none, none, none⟩
      | some pv =>
        match pv.totalBytes with
        | none => ⟨none, none, none⟩
        | some ptb =>
          if ptb = 0 then ⟨none, none, none⟩
          else
            let deltaBytes := ltb - ptb
            if deltaBytes < 0 then ⟨none, none, none⟩
            else
              let deltaSeconds := Int.fdiv (latest.timestamp - pv.timestamp) 1000
              if deltaSeconds ≤ 5 then ⟨some deltaBytes, some deltaSeconds, none⟩
              else
                match bigIntToNumberSafe (some deltaBytes) with
                | none => ⟨some deltaBytes, some deltaSeconds, none⟩
                | some dbn =>
                  ⟨some deltaBytes, some deltaSeconds,
                    some ((dbn : ℚ) / (deltaSeconds : ℚ))⟩

/-! ## Cleanup engine (`lib/cleanup.ts`, `constants.ts`)

Only the time column of each table matters to the cleanup engine, so a
table is a list of time values (`observedAt` / `timestamp` / `startedAt`,
in milliseconds).  The row-count thresholds come from `constants.ts`:
`GOSSIP_OBSERVATION_THRESHOLD = 1_000_000`,
`STATS_SAMPLE_THRESHOLD = 500_000`, `INGESTION_RUN_THRESHOLD = 10_000`,
`CLEANUP_TRIGGER_PERCENT = 0.9`, `CLEANUP_TARGET_PERCENT = 0.7`.  The
trigger and target bounds below are the exact values of the float
expressions the code evaluates: in IEEE-754 binary64 the products
`1000000 * 0.9`, `500000 * 0.9` and `10000 * 0.9` round to exactly
`900000`, `450000` and `9000`, and `1000000 * 0.7`, `500000 * 0.7` and
`10000 * 0.7` round to exactly `700000`, `350000` and `7000` (each true
product lies within half an ulp of the integer), so `Math.floor` leaves
the targets at exactly 70% of the thresholds. -/

def gossipTriggerCount : Nat := 900000

def statsTriggerCount : Nat := 450000

def runsTriggerCount : Nat := 9000

def gossipTargetCount : Nat := 700000

def statsTargetCount : Nat := 350000

def runsTargetCount : Nat := 7000

/-- The cleanup engine's view of the store: one list of time-column
values per high-volume table. -/
structure CleanupDB where
  gossip : List Int
  stats : List Int
  runs : List Int
deriving DecidableEq

/-- `findNthOldestDate` from `lib/cleanup.ts`:
`SELECT time FROM table ORDER BY time ASC LIMIT 1 OFFSET n` — the element
at 0-based position `n` of the rows sorted ascending by the time column,
or `null` when the offset is past the end. -/
def findNthOldestDate (rows : List Int) (n : Nat) : Option Int :=
  (List.insertionSort (· ≤ ·) rows)[n]?

/-- One table's branch of `performCleanup`: when the current count
exceeds the table's target, look up the cutoff at offset
`count - target` and delete every row whose time column is strictly less
than the cutoff.  Returns the retained rows and the deleted count. -/
def cleanupTable (rows : List Int) (target : Nat) : List Int × Nat :=
  if target < rows.length then
    match findNthOldestDate rows (rows.length - target) with
    | some cutoff =>
      (rows.filter (fun t => !decide (t < cutoff)),
        (rows.filter (fun t => decide (t < cutoff))).length)
    | none => (rows, 0)
  else (rows, 0)

/-- The result of `checkAndCleanupIfNeeded`: whether cleanup ran, the
retained rows of each table and the per-table deleted counts. -/
structure CleanupResult where
  cleanupNeeded : Bool
  gossip : List Int
  stats : List Int
  runs : List Int
  deletedGossip : Nat
  deletedStats : Nat
  deletedRuns : Nat
deriving DecidableEq

/-- `checkAndCleanupIfNeeded` from `lib/cleanup.ts`: count the rows of the
three tables; if no count exceeds its 90% trigger, do nothing; otherwise
run `performCleanup`, which handles each table over its target via
`cleanupTable`. -/
def checkAndCleanupIfNeeded (db : CleanupDB) : CleanupResult :=
  let gossipCount := db.gossip.length
  let statsCount := db.stats.length
  let runsCount := db.runs.length
  if gossipTriggerCount < gossipCount ∨ statsTriggerCount < statsCount ∨
      runsTriggerCount < runsCount then
    let g := cleanupTable db.gossip gossipTargetCount
    let s := cleanupTable db.stats statsTargetCount
    let r := cleanupTable db.runs runsTargetCount
    ⟨true, g.1, s.1, r.1, g.2, s.2, r.2⟩
  else
    ⟨false, db.gossip, db.stats, db.runs, 0, 0, 0⟩

/-! ## Snapshot computer (`lib/network-metrics.ts`)

`computeNetworkMetrics` pages through the `Pnode` table selecting, for
each peer, its scalar columns together with the most recent
`StatsSample` (for `uptimeSeconds`) and the most recent
`GossipObservation` (for storage and version).  A `NodeView` is one such
selected record; the table content is the list of all of them in table
order. -/

structure NodeView where
  isPublic : Bool
  failureCount : Nat
  latestCredits : Option ℚ
  latestUptime : Option Int
  latestStorageCommitted : Option Int
  latestStorageUsed : Option Int
  latestVersion : Option String
deriving DecidableEq

/-- The pagination loop of `computeNetworkMetrics`: fetch batches of
`BATCH_SIZE = 500` rows at increasing `skip` offsets; stop on an empty
batch or, after accumulating a batch, when the new offset exceeds the
safety limit `100000`.  `rem` is `all.drop skip`, so
`(all.drop skip).take 500 = rem.take 500` and
`all.drop (skip + 500) = rem.drop 500`. -/
def pageGo (rem : List NodeView) (skip : Nat) (acc : List NodeView) :
    List NodeView :=
  let batch := rem.take 500
  if batch.isEmpty then acc
  else if 100000 < skip + 500 then acc ++ batch
  else pageGo (rem.drop 500) (skip + 500) (acc ++ batch)
termination_by rem.length
decreasing_by
  simp only [List.length_drop]
  have hne : rem ≠ [] := by
    intro h
    simp [h, batch] at *
  have : 0 < rem.length := List.length_pos.mpr hne
  omega

/-- All peer rows actually read by `computeNetworkMetrics`. -/
def pagedNodes (all : List NodeView) : List NodeView :=
  pageGo all 0 []

/-- `percentile` from `lib/network-metrics.ts`: ceiling-index percentile
over an ascending-sorted list, index clamped into `[0, n-1]`, `0` for an
empty list.  For the two call sites (`p = 50` and `p = 90`) the float
expression `Math.ceil((p / 100) * n)` equals the exact rational ceiling
used here for every list length below 2^52. -/
def percentile (sortedValues : List Int) (p : Nat) : Int :=
  if sortedValues.length = 0 then 0
  else
    let idx : Int := (((p * sortedValues.length + 99) / 100 : Nat) : Int) - 1
    sortedValues.getD (Int.toNat (max 0 (min idx (sortedValues.length - 1)))) 0

/-- The scalar fields of a `NetworkSnapshot` row. -/
structure SnapshotScalars where
  totalNodes : Nat
  reachableNodes : Nat
  unreachableNodes : Nat
  reachablePercent : ℚ
  medianUptimeSeconds : Int
  p90UptimeSeconds : Int
  totalStorageCommitted : Int
  totalStorageUsed : Int
  nodesBackedOff : Nat
  nodesFailingStats : Nat
deriving DecidableEq

/-- JavaScript truthiness check used by the storage sums:
`latestGossip?.storageCommitted` is falsy for `null` and for `0n`; adding
the bigint only in the truthy case equals adding `v` when non-zero. -/
def addTruthy (acc : Int) (v : Option Int) : Int :=
  match v with
  | none => acc
  | some w => if w = 0 then acc else acc + w

/-- The scalar aggregates of `computeNetworkMetrics`
(`lib/network-metrics.ts`), computed over the paged peer rows. -/
def computeNetworkMetricsScalars (all : List NodeView) : SnapshotScalars :=
  let nodes := pagedNodes all
  let totalNodes := nodes.length
  let reachableNodes := (nodes.filter (fun n => n.isPublic)).length
  let unreachableNodes := totalNodes - reachableNodes
  let reachablePercent : ℚ :=
    if 0 < totalNodes then ((reachableNodes : ℚ) / (totalNodes : ℚ)) * 100
    else 0
  let uptimes :=
    List.insertionSort (· ≤ ·)
      ((nodes.filterMap (fun n => n.latestUptime)).filter
        (fun u => decide (0 < u)))
  let medianUptimeSeconds := if 0 < uptimes.length then percentile uptimes 50 else 0
  let p90UptimeSeconds := if 0 < uptimes.length then percentile uptimes 90 else 0
  let totalStorageCommitted :=
    nodes.foldl (fun acc n => addTruthy acc n.latestStorageCommitted) 0
  let totalStorageUsed :=
    nodes.foldl (fun acc n => addTruthy acc n.latestStorageUsed) 0
  let nodesBackedOff := (nodes.filter (fun n => 0 < n.failureCount)).length
  let nodesFailingStats :=
    (nodes.filter (fun n => 0 < n.failureCount ∧ !n.isPublic)).length
  ⟨totalNodes, reachableNodes, unreachableNodes, reachablePercent,
    medianUptimeSeconds, p90UptimeSeconds, totalStorageCommitted,
    totalStorageUsed, nodesBackedOff, nodesFailingStats⟩

/-! ## JSON-RPC result handling (`lib/prpc-client.ts`) -/

/-- A parsed JSON value. -/
inductive Json where
  | nullV
  | boolV (b : Bool)
  | numV (q : ℚ)
  | strV (s : String)
  | arrV (elems : List Json)
  | objV (fields : List (String × Json))

/-- JavaScript truthiness of a JSON value: `null`, `false`, `0` and `""`
are falsy; every array and object is truthy. -/
def Json.truthy : Json → Bool
  | .nullV => false
  | .boolV b => b
  | .numV q => !decide (q = 0)
  | .strV s => !decide (s = "")
  | .arrV _ => true
  | .objV _ => true

/-- A parsed JSON-RPC response body, restricted to the fields `prpcCall`
inspects (`error` and `result`; a field is `none` when absent). -/
structure PrpcResponse where
  error : Option Json
  result : Option Json

/-- Truthiness of an optional field: an absent field is falsy. -/
def truthyField : Option Json → Bool
  | none => false
  | some j => j.truthy

/-- What `prpcCall` does after a 2xx response parses as JSON: throw the
RPC error when `json.error` is truthy, throw the missing-result error
when `json.result` is falsy, and only otherwise return the result. -/
inductive PrpcOutcome where
  | rpcError
  | missingResult
  | ok (result : Json)

/-- The post-parse dispatch of `prpcCall` (`lib/prpc-client.ts`): `if
(json.error) throw ...; if (!json.result) throw ...; return
json.result`. -/
def prpcDispatch (resp : PrpcResponse) : PrpcOutcome :=
  if truthyField resp.error then .rpcError
  else if !truthyField resp.result then .missingResult
  else
    match resp.result with
    | some r => .ok r
    | none => .missingResult

/-! ## Ingestion cycle (`lib/ingest.ts`) -/

/-- `computeNextBackoff` from `lib/ingest.ts`:
`baseSeconds * 2^min(failureCount, 5)` with `baseSeconds = 60`. -/
def computeNextBackoff (failureCount : Nat) : Nat :=
  60 * 2 ^ (min failureCount 5)

/-- `resetStaleBackoffStates` (Stage A): every peer whose
`nextStatsAllowedAt` is older than 24 hours (86 400 000 ms) and whose
`failureCount` is positive is reset to `failureCount = 0`,
`nextStatsAllowedAt = null`.  The code reads the wall clock here and again
just after; the two reads are identified as `now`. -/
def resetStaleBackoffStates (now : Int) (db : DB) : DB :=
  { db with
    pnodes := db.pnodes.map (fun p =>
      match p.nextStatsAllowedAt with
      | some t =>
        if t < now - 86400000 ∧ 0 < p.failureCount then
          { p with failureCount := 0, nextStatsAllowedAt := none }
        else p
      | none => p) }

/-- `prisma.pnode.findUnique({ where: { id } })`. -/
def findPnodeById (db : DB) (pid : Nat) : Option Pnode :=
  db.pnodes.find? (fun p => p.id = pid)

/-- `prisma.pnode.update({ where: { id }, data })`. -/
def updatePnodeById (db : DB) (pid : Nat) (f : Pnode → Pnode) : DB :=
  { db with pnodes := db.pnodes.map (fun q => if q.id = pid then f q else q) }

/-- A fresh surrogate key for a created row. -/
def freshId (db : DB) : Nat :=
  (db.pnodes.map Pnode.id).foldr max 0 + 1

/-- `prisma.pnode.upsert({ where: { pubkey }, update: { isPublic },
create: { pubkey, isPublic } })`, returning the updated or created
row. -/
def upsertPnode (db : DB) (pk : String) (isPub : Bool) : DB × Pnode :=
  match db.pnodes.find? (fun p => p.pubkey = pk) with
  | some p =>
    ({ db with
       pnodes := db.pnodes.map (fun q =>
         if q.pubkey = pk then { q with isPublic := isPub } else q) },
     { p with isPublic := isPub })
  | none =>
    let p : Pnode := ⟨freshId db, pk, isPub, 0, none, none, none⟩
    ({ db with pnodes := db.pnodes ++ [p] }, p)

/-- One configured seed together with the outcome of `getPods` against it:
`none` models the call throwing (timeout, transport, HTTP, RPC error or
malformed body). -/
structure SeedInput where
  baseUrl : String
  podsResult : Option GetPodsResult
deriving DecidableEq

/-- The shape normalization at the top of the seed branch: a bare array
is taken as is, an object contributes its `pods` array when it is one,
and anything else yields `[]`. -/
def normalizePods : GetPodsResult → List PodInfo
  | .arr pods => pods
  | .obj (some pods) => pods
  | .obj none => []

/-- The `pods.filter((pod) => pod.pubkey)` predicate: JavaScript
truthiness, so an absent pubkey and the empty string are both
rejected. -/
def podHasPubkey (pod : PodInfo) : Bool :=
  match pod.pubkey with
  | none => false
  | some s => !decide (s = "")

/-- A Stage B probe task. -/
structure ProbeTask where
  pnodeId : Nat
  seedBaseUrl : String
  address : String
  statsBaseUrl : String
  failureCount : Nat
  baseUrl : String
deriving DecidableEq

/-- The cycle-global mutable state threaded through the seed fan-out:
the store plus the two global id sets (`backoffPnodeIds`,
`globalObservedPnodeIds`), kept as duplicate-free lists. -/
structure CycleState where
  db : DB
  backoffPnodeIds : List Nat
  globalObservedPnodeIds : List Nat
deriving DecidableEq

/-- `Set.add`: append if not already present. -/
def insertSet (s : List Nat) (x : Nat) : List Nat :=
  if x ∈ s then s else s ++ [x]

/-- Per-seed accumulators (`seedAttempted`, `seedBackoff`,
`seedObservedPnodeIds`, and the fulfilled non-null pod results that become
`statsTasks`). -/
structure SeedAcc where
  attempted : Nat
  backoff : Nat
  observed : List Nat
  tasks : List ProbeTask
deriving DecidableEq

/-- The probe URL construction: take the ip part of the gossip address
and use the fixed probe port 6000. -/
def statsBaseUrlOf (address : String) : String :=
  "http://" ++ (address.splitOn ":").headD "" ++ ":6000"

/-- One pod's branch of Stage B (the body of the inner
`Promise.allSettled` map in `runIngestionCycle`): upsert the peer by
pubkey, insert one gossip observation, re-read the peer row, then decide
eligibility — in backoff when `nextStatsAllowedAt > now`; delayed reset
(clear `failureCount`/`nextStatsAllowedAt`) when the backoff expired with
a positive count; otherwise the pod yields a probe task carrying the
failure count read before the reset. -/
def processPod (now : Int) (seedBaseUrl : String) (st : CycleState)
    (acc : SeedAcc) (pod : PodInfo) : CycleState × SeedAcc :=
  let pk := pod.pubkey.getD ""
  let up := upsertPnode st.db pk (pod.is_public.getD false)
  let pnode := up.2
  let row : GossipRow :=
    ⟨seedBaseUrl, pnode.id, pod.address, pod.version, pod.last_seen_timestamp,
      now, pod.storage_committed, pod.storage_used, pod.storage_usage_percent,
      pod.is_public⟩
  let db2 := { up.1 with gossip := up.1.gossip ++ [row] }
  let st1 : CycleState :=
    ⟨db2, st.backoffPnodeIds, insertSet st.globalObservedPnodeIds pnode.id⟩
  let acc1 := { acc with observed := insertSet acc.observed pnode.id }
  match findPnodeById db2 pnode.id with
  | none => (st1, acc1)
  | some fresh =>
    let task : ProbeTask :=
      ⟨pnode.id, seedBaseUrl, pod.address, statsBaseUrlOf pod.address,
        fresh.failureCount, seedBaseUrl⟩
    match fresh.nextStatsAllowedAt with
    | some t =>
      if now < t then
        (⟨st1.db, insertSet st1.backoffPnodeIds pnode.id,
           st1.globalObservedPnodeIds⟩,
         { acc1 with backoff := acc1.backoff + 1 })
      else
        let st2 : CycleState :=
          if 0 < fresh.failureCount then
            ⟨updatePnodeById st1.db pnode.id (fun p =>
                { p with failureCount := 0, nextStatsAllowedAt := none }),
              st1.backoffPnodeIds, st1.globalObservedPnodeIds⟩
          else st1
        (st2, { acc1 with attempted := acc1.attempted + 1,
                          tasks := acc1.tasks ++ [task] })
    | none =>
      (st1, { acc1 with attempted := acc1.attempted + 1,
                        tasks := acc1.tasks ++ [task] })

/-- The per-seed result record (the value the seed's promise resolves
to). -/
structure SeedResult where
  pods : List PodInfo
  statsTasks : List ProbeTask
  seedBaseUrl : String
  attempted : Nat
  backoff : Nat
  observed : Nat
deriving DecidableEq

/-- One seed's branch of Stage B: on a `getPods` error the seed
contributes an empty result; otherwise every pod carrying a pubkey is
processed in order. -/
def processSeed (now : Int) (st : CycleState) (seed : SeedInput) :
    CycleState × SeedResult :=
  match seed.podsResult with
  | none => (st, ⟨[], [], seed.baseUrl, 0, 0, 0⟩)
  | some res =>
    let pods := normalizePods res
    let folded :=
      (pods.filter podHasPubkey).foldl
        (fun (p : CycleState × SeedAcc) pod =>
          processPod now seed.baseUrl p.1 p.2 pod)
        (st, ⟨0, 0, [], []⟩)
    (folded.1,
      ⟨pods, folded.2.tasks, seed.baseUrl, folded.2.attempted,
        folded.2.backoff, folded.2.observed.length⟩)

/-- Stage B over all seeds, in order. -/
def processSeeds (now : Int) (st : CycleState) :
    List SeedInput → CycleState × List SeedResult
  | [] => (st, [])
  | s :: ss =>
    let first := processSeed now st s
    let rest := processSeeds now first.1 ss
    (rest.1, first.2 :: rest.2)

/-- All probe tasks collected across seeds, in seed order
(`allStatsTasks`). -/
def allStatsTasks (seedResults : List SeedResult) : List ProbeTask :=
  (seedResults.map SeedResult.statsTasks).flatten

/-- The Stage C deduplication loop: keep only the first task per
`pnodeId` (a `Map` insert that skips existing keys, iterated in task
order). -/
def dedupGo (seen : List Nat) : List ProbeTask → List ProbeTask
  | [] => []
  | t :: ts =>
    if t.pnodeId ∈ seen then dedupGo seen ts
    else t :: dedupGo (t.pnodeId :: seen) ts

/-- `deduplicatedStatsTasks`. -/
def dedupFirstByPnodeId (tasks : List ProbeTask) : List ProbeTask :=
  dedupGo [] tasks

/-- The value a Stage D task promise resolves to. -/
structure ProbeResult where
  success : Bool
  pnodeId : Nat
  failureCount : Nat
  seedBaseUrl : String
deriving DecidableEq

/-- `prisma.pnodeStatsSample.findFirst({ where: { pnodeId }, orderBy:
{ timestamp: "desc" } })`: a stored sample of that peer with maximal
timestamp. -/
def latestSampleFor (db : DB) (pid : Nat) : Option StatsRow :=
  (db.samples.filter (fun s => s.pnodeId = pid)).foldl
    (fun best s =>
      match best with
      | none => some s
      | some b => if b.timestamp < s.timestamp then some s else some b)
    none

/-- One Stage D task: call `getStats` on the probe URL (`probe` returns
`none` when the call throws, `clock` is the wall clock read for the new
sample's timestamp).  On success: derive rates against the most recent
prior sample, insert one stats sample, and reset the peer's backoff state
with `nextStatsAllowedAt = now + 60 s`.  On failure: increment the task's
failure count and set `nextStatsAllowedAt = now + computeNextBackoff`
seconds, inserting nothing. -/
def processProbeTask (now : Int) (probe : String → Option GetStatsResult)
    (clock : String → Int) (db : DB) (task : ProbeTask) : DB × ProbeResult :=
  match probe task.statsBaseUrl with
  | some stats =>
    let prevSample := latestSampleFor db task.pnodeId
    let latestSampleTimestamp := clock task.statsBaseUrl
    let rates := computePacketRates prevSample stats.packets_received
      stats.packets_sent latestSampleTimestamp
    let row : StatsRow :=
      ⟨task.pnodeId, task.seedBaseUrl, latestSampleTimestamp, stats.uptime,
        rates.1, rates.2, stats.packets_received, stats.packets_sent,
        stats.total_bytes, stats.active_streams⟩
    let db1 := { db with samples := db.samples ++ [row] }
    let db2 := updatePnodeById db1 task.pnodeId (fun p =>
      { p with failureCount := 0, lastStatsAttemptAt := some now,
               lastStatsSuccessAt := some now,
               nextStatsAllowedAt := some (now + 60 * 1000) })
    (db2, ⟨true, task.pnodeId, task.failureCount, task.seedBaseUrl⟩)
  | none =>
    let newFailureCount := task.failureCount + 1
    let delaySeconds := computeNextBackoff newFailureCount
    let db1 := updatePnodeById db task.pnodeId (fun p =>
      { p with failureCount := newFailureCount,
               lastStatsAttemptAt := some now,
               nextStatsAllowedAt := some (now + (delaySeconds : Int) * 1000) })
    (db1, ⟨false, task.pnodeId, task.failureCount, task.seedBaseUrl⟩)

/-- Stage D over the deduplicated tasks.  The code walks them in
sequential batches of 50 (a concurrency bound); the sequential pass below
produces the same store state, the same result list and one `getStats`
call (logged by URL) per task in the same order. -/
def processProbeTasks (now : Int) (probe : String → Option GetStatsResult)
    (clock : String → Int) (db : DB) :
    List ProbeTask → DB × List ProbeResult × List String
  | [] => (db, [], [])
  | t :: ts =>
    let first := processProbeTask now probe clock db t
    let rest := processProbeTasks now probe clock first.1 ts
    (rest.1, first.2 :: rest.2.1, t.statsBaseUrl :: rest.2.2)

/-- The global counters of the cycle summary.  (The per-seed
`seedStats` vector also returned by the code is not modelled; no verified
statement reads it.) -/
structure CycleSummary where
  seedsCount : Nat
  totalPods : Nat
  gossipObs : Nat
  statsAttempts : Nat
  statsSuccess : Nat
  statsFailure : Nat
  backoffCount : Nat
  observed : Nat
deriving DecidableEq

/-- Everything one cycle produces: the summary, the final store state,
the per-task results and the log of `getStats` calls issued. -/
structure CycleOutput where
  summary : CycleSummary
  db : DB
  statsResults : List ProbeResult
  rpcCalls : List String
deriving DecidableEq

/-- Stages A and B of one cycle: the stale-backoff reset followed by the
seed fan-out, starting from empty global id sets. -/
def stageBState (now : Int) (db0 : DB) (seeds : List SeedInput) :
    CycleState × List SeedResult :=
  processSeeds now ⟨resetStaleBackoffStates now db0, [], []⟩ seeds

/-- The `allStatsTasks` list of one cycle: every Stage B probe task in
seed order. -/
def cycleTasks (now : Int) (db0 : DB) (seeds : List SeedInput) :
    List ProbeTask :=
  allStatsTasks (stageBState now db0 seeds).2

/-- The `deduplicatedStatsTasks` list of one cycle. -/
def cycleDedupTasks (now : Int) (db0 : DB) (seeds : List SeedInput) :
    List ProbeTask :=
  dedupFirstByPnodeId (cycleTasks now db0 seeds)

/-- The pods a seed listed this cycle (after shape normalization; empty
when `getPods` threw). -/
def seedListedPods (seed : SeedInput) : List PodInfo :=
  match seed.podsResult with
  | none => []
  | some res => normalizePods res

/-- `runIngestionCycle` from `lib/ingest.ts`: Stage A stale-backoff
reset, Stage B gossip fan-out over all seeds, Stage C deduplication,
Stage D probe fan-out, Stage E summary. -/
def runIngestionCycle (now : Int) (db0 : DB) (seeds : List SeedInput)
    (probe : String → Option GetStatsResult) (clock : String → Int) :
    CycleOutput :=
  let stageB := stageBState now db0 seeds
  let seedResults := stageB.2
  let totalPods := (seedResults.map (fun r => r.pods.length)).sum
  let gossipObs := (seedResults.map (fun r => r.pods.length)).sum
  let dedupTasks := cycleDedupTasks now db0 seeds
  let statsAttempts := dedupTasks.length
  let stageD := processProbeTasks now probe clock stageB.1.db dedupTasks
  let results := stageD.2.1
  let statsSuccess := (results.filter (fun r => r.success)).length
  let statsFailure := (results.filter (fun r => !r.success)).length
  ⟨⟨seeds.length, totalPods, gossipObs, statsAttempts, statsSuccess,
      statsFailure, stageB.1.backoffPnodeIds.length,
      stageB.1.globalObservedPnodeIds.length⟩,
    stageD.1, results, stageD.2.2⟩

/-- A peer id has a row in the store. -/
def idMem (db : DB) (pid : Nat) : Prop :=
  ∃ p ∈ db.pnodes, p.id = pid

/-- The stats samples of one peer. -/
def samplesFor (db : DB) (pid : Nat) : List StatsRow :=
  db.samples.filter (fun s => s.pnodeId = pid)

/-! ## Concrete inputs used by witnesses and counterexamples -/

/-- An empty store. -/
def exEmptyDb : DB := ⟨[], [], []⟩

/-- A pod carrying pubkey `"A"`. -/
def exPodA : PodInfo :=
  ⟨"10.0.0.1:6000", none, none, some "A", none, none, none, none, none⟩

/-- A pod with no pubkey. -/
def exPodNoKey : PodInfo :=
  ⟨"10.0.0.2:6000", none, none, none, none, none, none, none, none⟩

/-- A seed reporting the single pod `exPodA`. -/
def exSeedA : SeedInput := ⟨"http://seed1", some (.arr [exPodA])⟩

/-- A seed reporting only a pod without a pubkey. -/
def exSeedNoKey : SeedInput := ⟨"http://seed1", some (.arr [exPodNoKey])⟩

/-- A probe oracle on which every `getStats` call throws. -/
def exProbeFail : String → Option GetStatsResult := fun _ => none

/-- A constant wall clock for sample timestamps. -/
def exClock : String → Int := fun _ => 1000

/-- The result Stage D produces for `exPodA` when its probe fails. -/
def exFailResult : ProbeResult := ⟨false, 1, 0, "http://seed1"⟩

/-- A prior sample with cumulative counters `100` / `50` at time 0. -/
def exPriorSample : StatsRow :=
  ⟨1, "s", 0, none, none, none, some 100, some 50, none, none⟩

/-- A prior sample whose `packetsSentCumulative` is null. -/
def exPriorNoSent : StatsRow :=
  ⟨1, "s", 0, none, none, none, some 100, none, none, none⟩

/-- A prior sample with `totalBytes = 1` at time 0. -/
def exBytesPrev : StatsRow :=
  ⟨1, "s", 0, none, none, none, none, none, some 1, none⟩

/-- A latest sample whose `totalBytes` exceeds the prior one by
`2^53 > MAX_SAFE_INTEGER`, ten seconds later. -/
def exBytesLatest : StatsRow :=
  ⟨1, "s", 10000, none, none, none, none, none, some 9007199254740993, none⟩

/-- A 2xx JSON-RPC response with no `error` field and `result: 0`. -/
def exRespZero : PrpcResponse := ⟨none, some (.numV 0)⟩

/-- A peer row as paged by the snapshot computer. -/
def exNode : NodeView := ⟨false, 0, none, none, none, none, none⟩

/-- A cleanup store with every table empty. -/
def exCleanupEmpty : CleanupDB := ⟨[], [], []⟩

/-- What one table's cleanup pass does, as a relation between the
original rows, the table's target, the retained rows and the deleted
count: a table at or below its target is untouched; a table over its
(positive) target gets the cutoff at 0-based offset `count - target` of
the ascending time column and loses exactly the rows strictly below the
cutoff; a deleted row is strictly older than every retained row; and with
distinct times exactly `count - target` rows are deleted. -/
def cleanupTableCorrect (rows : List Int) (target : Nat) (kept : List Int)
    (deleted : Nat) : Prop :=
  (rows.length ≤ target → kept = rows ∧ deleted = 0) ∧
  (target < rows.length → 0 < target →
    ∃ c, findNthOldestDate rows (rows.length - target) = some c ∧
      kept = rows.filter (fun t => !decide (t < c)) ∧
      deleted = (rows.filter (fun t => decide (t < c))).length) ∧
  (∀ t ∈ rows, t ∉ kept → ∀ u ∈ kept, t < u) ∧
  (rows.Nodup → target < rows.length → 0 < target →
    kept.length = target ∧ deleted = rows.length - target)

end IngestionWorker

namespace IngestionWorker

/-! ## Verified statements -/

/-- C4: in the probe-success path, with a prior sample whose packet
counters are present and a new reading carrying both counters, the
derived rate of each counter is null when the elapsed whole seconds
`Δt = floor((tNew - prior.timestamp)/1000)` is at most 5, null when that
counter's delta is negative, and otherwise exactly `Δc / Δt`. -/
theorem c4_packet_rate_cases (pv : StatsRow) (a b pr ps tNew : Int)
    (ha : pv.packetsReceivedCumulative = some a)
    (hb : pv.packetsSentCumulative = some b) :
    (Int.fdiv (tNew - pv.timestamp) 1000 ≤ 5 →
      computePacketRates (some pv) (some pr) (some ps) tNew = (none, none)) ∧
    (5 < Int.fdiv (tNew - pv.timestamp) 1000 →
      (computePacketRates (some pv) (some pr) (some ps) tNew).1 =
        if pr - a < 0 then none
        else some (((pr - a : Int) : ℚ) /
          ((Int.fdiv (tNew - pv.timestamp) 1000 : Int) : ℚ))) ∧
    (5 < Int.fdiv (tNew - pv.timestamp) 1000 →
      (computePacketRates (some pv) (some pr) (some ps) tNew).2 =
        if ps - b < 0 then none
        else some (((ps - b : Int) : ℚ) /
          ((Int.fdiv (tNew - pv.timestamp) 1000 : Int) : ℚ))) := by
  refine ⟨fun h => ?_, fun h => ?_, fun h => ?_⟩ <;>
    simp only [computePacketRates, ha, hb]
  · rw [if_neg (by omega)]
  · rw [if_pos h]
    split_ifs with h1 h2 h3 <;> first | rfl | omega
  · rw [if_pos h]
    split_ifs with h1 h2 h3 <;> first | rfl | omega

/-- Witness for C4 at a concrete input: prior counters `(100, 50)` at
time 0, new counters `(700, 350)` at time 60 000 ms, so `Δt = 60` and the
rates are `10` and `5`. -/
theorem c4_packet_rate_cases_witness :
    computePacketRates (some exPriorSample) (some 700) (some 350) 60000 =
      (some 10, some 5) := by
  have h := c4_packet_rate_cases exPriorSample 100 50 700 350 60000 rfl rfl
  have h1 := h.2.1 (by decide)
  have h2 := h.2.2 (by decide)
  have : computePacketRates (some exPriorSample) (some 700) (some 350) 60000 =
      ((computePacketRates (some exPriorSample) (some 700) (some 350) 60000).1,
       (computePacketRates (some exPriorSample) (some 700) (some 350) 60000).2) := rfl
  rw [this, h1, h2]
  norm_num [exPriorSample, Int.fdiv]

/-- C10: the packet rates are derived only when all four cumulative
counters are present; if either counter of the new reading or either
stored counter of the prior sample is null, both derived rates are
null. -/
theorem c10_rates_need_all_counters (pv : StatsRow)
    (packetsReceived packetsSent : Option Int) (tNew : Int)
    (h : packetsReceived = none ∨ packetsSent = none ∨
      pv.packetsReceivedCumulative = none ∨ pv.packetsSentCumulative = none) :
    computePacketRates (some pv) packetsReceived packetsSent tNew =
      (none, none) := by
  rcases h with h | h | h | h
  · subst h
    cases packetsSent <;> rfl
  · subst h
    cases packetsReceived <;> rfl
  · cases packetsReceived with
    | none => rfl
    | some pr =>
      cases packetsSent with
      | none => rfl
      | some ps =>
        simp only [computePacketRates, h]
  · cases packetsReceived with
    | none => rfl
    | some pr =>
      cases packetsSent with
      | none => rfl
      | some ps =>
        simp only [computePacketRates, h]
        cases hx : pv.packetsReceivedCumulative <;> rfl

/-- Witness for C10 at a concrete input: the prior sample lacks
`packetsSentCumulative`, so both rates are null although both new
counters are present. -/
theorem c10_rates_need_all_counters_witness :
    computePacketRates (some exPriorNoSent) (some 700) (some 350) 60000 =
      (none, none) :=
  c10_rates_need_all_counters exPriorNoSent (some 700) (some 350) 60000
    (Or.inr (Or.inr (Or.inr rfl)))

/-- C9: for a parsed 2xx JSON-RPC response with no error object, a falsy
`result` (absent, `null`, `false`, `0` or `""`) makes `prpcCall` raise
the missing-result error; such a response is never returned to the
caller. -/
theorem c9_falsy_result_raises (resp : PrpcResponse)
    (he : resp.error = none)
    (hf : resp.result = none ∨ resp.result = some .nullV ∨
      resp.result = some (.boolV false) ∨ resp.result = some (.numV 0) ∨
      resp.result = some (.strV "")) :
    prpcDispatch resp = .missingResult := by
  rcases hf with h | h | h | h | h <;>
    simp [prpcDispatch, truthyField, Json.truthy, he, h]

/-- Witness for C9 at a concrete input: a response whose `result` is the
number `0`. -/
theorem c9_falsy_result_raises_witness :
    prpcDispatch exRespZero = .missingResult :=
  c9_falsy_result_raises exRespZero rfl
    (Or.inr (Or.inr (Or.inr (Or.inl rfl))))

/-- C7: on an empty `Pnode` table the snapshot scalars are all zero:
`totalNodes`, `reachablePercent`, `medianUptimeSeconds`,
`p90UptimeSeconds`, `totalStorageCommitted` and `totalStorageUsed`. -/
theorem c7_empty_peer_table :
    (computeNetworkMetricsScalars []).totalNodes = 0 ∧
    (computeNetworkMetricsScalars []).reachablePercent = 0 ∧
    (computeNetworkMetricsScalars []).medianUptimeSeconds = 0 ∧
    (computeNetworkMetricsScalars []).p90UptimeSeconds = 0 ∧
    (computeNetworkMetricsScalars []).totalStorageCommitted = 0 ∧
    (computeNetworkMetricsScalars []).totalStorageUsed = 0 := by
  have hp : pagedNodes ([] : List NodeView) = [] := by
    rw [pagedNodes, pageGo]
    simp
  simp [computeNetworkMetricsScalars, hp]

/-- C5, counterexample: with a prior `totalBytes = 1` and a latest
`totalBytes = 2^53 + 1` ten seconds later, the byte delta `2^53` exceeds
`MAX_SAFE_INTEGER`, yet `computeBytesPerSecond` does not report null: it
clamps the delta to `MAX_SAFE_INTEGER` and returns the clamped rate,
contradicting "overflowing values are represented as null". -/
theorem c5_overflow_not_null :
    maxSafeInteger < 9007199254740992 ∧
    (computeBytesPerSecond (some exBytesPrev) exBytesLatest).deltaBytes =
      some 9007199254740992 ∧
    (computeBytesPerSecond (some exBytesPrev) exBytesLatest).bytesPerSecond =
      some ((9007199254740991 : ℚ) / 10) := by
  refine ⟨by decide, ?_, ?_⟩ <;>
    norm_num [computeBytesPerSecond, exBytesPrev, exBytesLatest,
      bigIntToNumberSafe, maxSafeInteger, Int.fdiv]

/-- C5, amended: in `computeBytesPerSecond` the conversion to float
happens only after the exact wide-integer subtraction; a negative delta
is reported as null (never as zero), and every non-null rate equals the
delta clamped into the safe float range (to `MAX_SAFE_INTEGER`) divided
by the elapsed whole seconds — an overflowing delta is clamped, not
nulled. -/
theorem c5_amended_clamped_rate (prev : Option StatsRow) (latest : StatsRow) :
    (∀ d, (computeBytesPerSecond prev latest).deltaBytes = some d → 0 ≤ d) ∧
    (∀ q, (computeBytesPerSecond prev latest).bytesPerSecond = some q →
      ∃ d s, (computeBytesPerSecond prev latest).deltaBytes = some d ∧
        (computeBytesPerSecond prev latest).deltaSeconds = some s ∧
        0 ≤ d ∧ 5 < s ∧
        q = ((min d maxSafeInteger : Int) : ℚ) / ((s : Int) : ℚ)) := by
  rcases hlt : latest.totalBytes with _ | ltb
  · simp [computeBytesPerSecond, hlt]
  by_cases h0 : ltb = 0
  · simp [computeBytesPerSecond, hlt, h0]
  rcases prev with _ | pv
  · simp [computeBytesPerSecond, hlt, h0]
  rcases hpt : pv.totalBytes with _ | ptb
  · simp [computeBytesPerSecond, hlt, h0, hpt]
  by_cases hp0 : ptb = 0
  · simp [computeBytesPerSecond, hlt, h0, hpt, hp0]
  by_cases hneg : ltb - ptb < 0
  · simp [computeBytesPerSecond, hlt, h0, hpt, hp0, hneg]
  by_cases h5 : Int.fdiv (latest.timestamp - pv.timestamp) 1000 ≤ 5
  · simp only [computeBytesPerSecond, hlt, h0, hpt, hp0, hneg, h5, if_true,
      if_false, if_neg, if_pos]
    refine ⟨fun d hd => ?_, fun q hq => ?_⟩
    · simp only [Option.some.injEq] at hd
      omega
    · simp at hq
  · by_cases hover : maxSafeInteger < ltb - ptb
    · simp only [computeBytesPerSecond, bigIntToNumberSafe, hlt, h0, hpt, hp0,
        hneg, h5, hover, if_true, if_false, if_neg, if_pos]
      refine ⟨fun d hd => ?_, fun q hq => ?_⟩
      · simp only [Option.some.injEq] at hd
        omega
      · simp only [Option.some.injEq] at hq
        refine ⟨ltb - ptb, Int.fdiv (latest.timestamp - pv.timestamp) 1000,
          rfl, rfl, by omega, by omega, ?_⟩
        rw [← hq, min_eq_right (le_of_lt hover)]
    · simp only [computeBytesPerSecond, bigIntToNumberSafe, hlt, h0, hpt, hp0,
        hneg, h5, hover, if_true, if_false, if_neg, if_pos]
      refine ⟨fun d hd => ?_, fun q hq => ?_⟩
      · simp only [Option.some.injEq] at hd
        omega
      · simp only [Option.some.injEq] at hq
        refine ⟨ltb - ptb, Int.fdiv (latest.timestamp - pv.timestamp) 1000,
          rfl, rfl, by omega, by omega, ?_⟩
        rw [← hq, min_eq_left (by omega)]

/-- Witness for C5's amended statement at a concrete input: the
overflowing pair from the counterexample, where the non-null rate is
exactly the clamped delta over ten seconds. -/
theorem c5_amended_clamped_rate_witness :
    ∃ d s,
      (computeBytesPerSecond (some exBytesPrev) exBytesLatest).deltaBytes =
        some d ∧
      (computeBytesPerSecond (some exBytesPrev) exBytesLatest).deltaSeconds =
        some s ∧
      0 ≤ d ∧ 5 < s ∧
      ((9007199254740991 : ℚ) / 10) =
        ((min d maxSafeInteger : Int) : ℚ) / ((s : Int) : ℚ) :=
  (c5_amended_clamped_rate (some exBytesPrev) exBytesLatest).2
    ((9007199254740991 : ℚ) / 10)
    (by norm_num [computeBytesPerSecond, exBytesPrev, exBytesLatest,
      bigIntToNumberSafe, maxSafeInteger, Int.fdiv])

/-- Length of the pagination loop's result: starting at a 500-divisible
offset `skip ≤ 100000` with `rem = all.drop skip` still to read, the loop
reads `min rem.length (100500 - skip)` further rows. -/
theorem pageGo_length (n : Nat) : ∀ (rem : List NodeView) (skip : Nat)
    (acc : List NodeView), rem.length ≤ n → skip % 500 = 0 →
    skip ≤ 100000 →
    (pageGo rem skip acc).length = acc.length + min rem.length (100500 - skip) := by
  induction n with
  | zero =>
    intro rem skip acc h0 _ _
    have hnil : rem = [] := List.length_eq_zero.mp (Nat.le_zero.mp h0)
    subst hnil
    rw [pageGo]
    simp
  | succ n ih =>
    intro rem skip acc hlen hmod hle
    rcases rem with _ | ⟨x, xs⟩
    · rw [pageGo]
      simp
    · have hb : (((x :: xs) : List NodeView).take 500).isEmpty = false := by
        simp [List.isEmpty_iff, List.take_eq_nil_iff]
      rw [pageGo]
      simp only [hb, Bool.false_eq_true, if_false]
      by_cases hs : 100000 < skip + 500
      · have hskip : skip = 100000 := by omega
        subst hskip
        simp only [hs, if_true]
        simp only [List.length_append, List.length_take, List.length_cons]
        omega
      · simp only [hs, if_false]
        rw [ih (((x :: xs) : List NodeView).drop 500) (skip + 500)
          (acc ++ ((x :: xs) : List NodeView).take 500)
          (by simp only [List.length_drop, List.length_cons] at hlen ⊢; omega)
          (by omega) (by omega)]
        simp only [List.length_append, List.length_take, List.length_drop,
          List.length_cons]
        omega

/-- C8, amended: `totalNodes` equals the number of peer rows read by the
pagination at 500 rows per page, and that number is
`min(peerCount, 100500)`: the loop's safety bound stops reading once the
row offset exceeds 100 000 (201 pages of 500 rows), not after 100 000
pages. -/
theorem c8_amended_pagination_bound (all : List NodeView) :
    (computeNetworkMetricsScalars all).totalNodes = min all.length 100500 := by
  have h := pageGo_length all.length all 0 [] le_rfl rfl (by omega)
  show (pagedNodes all).length = min all.length 100500
  rw [pagedNodes, h]
  simp

/-- C8, counterexample: a `Pnode` table of 100 501 rows needs only 202
pages — far below the claimed 100 000-page safety bound — yet the loop
stops after reading 100 500 rows, so `totalNodes` is 100 500, not the
row count 100 501. -/
theorem c8_bound_is_rows_not_pages :
    (List.replicate 100501 exNode).length = 100501 ∧
    (computeNetworkMetricsScalars (List.replicate 100501 exNode)).totalNodes =
      100500 := by
  have key : ∀ l : List NodeView, l.length = 100501 →
      (computeNetworkMetricsScalars l).totalNodes = 100500 := by
    intro l hl
    have h := pageGo_length l.length l 0 [] le_rfl rfl (by omega)
    show (pagedNodes l).length = 100500
    rw [pagedNodes, h, hl]
    simp
  exact ⟨List.length_replicate 100501 exNode,
    key _ (List.length_replicate 100501 exNode)⟩

/-- In a strictly ascending list, the rows strictly below the element at
0-based position `n` are exactly the first `n` rows. -/
theorem sorted_lt_filter_length : ∀ (l : List Int) (n : Nat) (c : Int),
    l.Sorted (· < ·) → l[n]? = some c →
    (l.filter (fun t => decide (t < c))).length = n := by
  intro l
  induction l with
  | nil =>
    intro n c _ hg
    simp at hg
  | cons x xs ih =>
    intro n c hs hg
    rcases List.sorted_cons.mp hs with ⟨hx, hxs⟩
    cases n with
    | zero =>
      have hc : c = x := by simpa using hg.symm
      subst hc
      rw [List.filter_cons_of_neg (by simp)]
      rw [List.filter_eq_nil_iff.mpr ?_]
      · rfl
      · intro a ha
        simp only [decide_eq_true_eq, not_lt]
        exact le_of_lt (hx a ha)
    | succ n =>
      have hg' : xs[n]? = some c := by simpa using hg
      have hxc : x < c := hx c (List.getElem?_mem hg')
      rw [List.filter_cons_of_pos (by simpa using hxc)]
      simp [ih n c hxs hg']

/-- An ascending list without duplicates is strictly ascending. -/
theorem sorted_le_nodup_sorted_lt (l : List Int) (h1 : l.Sorted (· ≤ ·))
    (h2 : l.Nodup) : l.Sorted (· < ·) :=
  (List.Pairwise.and h1 h2).imp (fun hab => lt_of_le_of_ne hab.1 hab.2)

/-- `cleanupTable` satisfies the per-table cleanup specification. -/
theorem cleanupTable_correct (rows : List Int) (target : Nat) :
    cleanupTableCorrect rows target (cleanupTable rows target).1
      (cleanupTable rows target).2 := by
  by_cases h : target < rows.length
  · have hlen : (List.insertionSort (· ≤ ·) rows).length = rows.length :=
      (List.perm_insertionSort (· ≤ ·) rows).length_eq
    cases hfind : findNthOldestDate rows (rows.length - target) with
    | none =>
      have he1 : (cleanupTable rows target).1 = rows := by
        unfold cleanupTable
        rw [if_pos h, hfind]
      have he2 : (cleanupTable rows target).2 = 0 := by
        unfold cleanupTable
        rw [if_pos h, hfind]
      rw [cleanupTableCorrect, he1, he2]
      have himp : ¬ 0 < target := by
        intro h0
        have hn : rows.length - target <
            (List.insertionSort (· ≤ ·) rows).length := by
          rw [hlen]; omega
        rw [findNthOldestDate, List.getElem?_eq_getElem hn] at hfind
        simp at hfind
      refine ⟨fun hle => absurd h (not_lt.mpr hle),
        fun _ h0 => absurd h0 himp, ?_, fun _ _ h0 => absurd h0 himp⟩
      intro t ht htn
      exact absurd ht htn
    | some c =>
      have he1 : (cleanupTable rows target).1 =
          rows.filter (fun t => !decide (t < c)) := by
        unfold cleanupTable
        rw [if_pos h, hfind]
      have he2 : (cleanupTable rows target).2 =
          (rows.filter (fun t => decide (t < c))).length := by
        unfold cleanupTable
        rw [if_pos h, hfind]
      rw [cleanupTableCorrect, he1, he2]
      refine ⟨fun hle => absurd h (not_lt.mpr hle),
        fun _ _ => ⟨c, hfind, rfl, rfl⟩, ?_, fun hnd _ h0 => ?_⟩
      · intro t ht htn u hu
        rw [List.mem_filter] at hu
        have htc : t < c := by
          by_contra hcon
          exact htn (List.mem_filter.mpr ⟨ht, by simpa using hcon⟩)
        have huc : c ≤ u := by simpa using hu.2
        omega
      · have hperm := List.perm_insertionSort (· ≤ ·) rows
        have hsort : (List.insertionSort (· ≤ ·) rows).Sorted (· ≤ ·) :=
          List.sorted_insertionSort (· ≤ ·) rows
        have hnds : (List.insertionSort (· ≤ ·) rows).Nodup :=
          hperm.symm.nodup hnd
        have hslt : (List.insertionSort (· ≤ ·) rows).Sorted (· < ·) :=
          sorted_le_nodup_sorted_lt _ hsort hnds
        have hgetc : (List.insertionSort (· ≤ ·) rows)[rows.length - target]? =
            some c := hfind
        have hdel : ((List.insertionSort (· ≤ ·) rows).filter
            (fun t => decide (t < c))).length = rows.length - target :=
          sorted_lt_filter_length _ _ c hslt hgetc
        have hdelrows : (rows.filter (fun t => decide (t < c))).length =
            rows.length - target := by
          rw [← hdel]
          exact ((hperm.filter (fun t => decide (t < c))).length_eq).symm
        have hsum : (rows.filter (fun t => decide (t < c))).length +
            (rows.filter (fun t => !decide (t < c))).length = rows.length := by
          have := (List.filter_append_perm (fun t => decide (t < c)) rows).length_eq
          simpa [List.length_append] using this
        exact ⟨by omega, hdelrows⟩
  · have he1 : (cleanupTable rows target).1 = rows := by
      unfold cleanupTable
      rw [if_neg h]
    have he2 : (cleanupTable rows target).2 = 0 := by
      unfold cleanupTable
      rw [if_neg h]
    rw [cleanupTableCorrect, he1, he2]
    refine ⟨fun _ => ⟨rfl, rfl⟩, fun hlt _ => absurd hlt h, ?_,
      fun _ hlt _ => absurd hlt h⟩
    intro t ht htn
    exact absurd ht htn

/-- C3: the cleanup engine deletes nothing unless some table's row count
exceeds 90% of its threshold; when triggered, each table whose count
exceeds 70% of its threshold (its target: 700 000 for GossipObservation,
350 000 for StatsSample, 7 000 for IngestionRun) gets the cutoff at
0-based offset `count - target` of the ascending time column, and
exactly the rows whose time column is strictly less than the cutoff are
deleted, so every retained row is at least the cutoff and no deleted row
is newer than any retained row; a table at or below its target is
untouched, and with distinct times exactly `count - target` rows are
deleted. -/
theorem c3_cleanup_trigger_and_cutoff (db : CleanupDB) :
    (db.gossip.length ≤ 900000 → db.stats.length ≤ 450000 →
      db.runs.length ≤ 9000 →
      checkAndCleanupIfNeeded db =
        ⟨false, db.gossip, db.stats, db.runs, 0, 0, 0⟩) ∧
    ((checkAndCleanupIfNeeded db).cleanupNeeded = true →
      cleanupTableCorrect db.gossip gossipTargetCount
        (checkAndCleanupIfNeeded db).gossip
        (checkAndCleanupIfNeeded db).deletedGossip ∧
      cleanupTableCorrect db.stats statsTargetCount
        (checkAndCleanupIfNeeded db).stats
        (checkAndCleanupIfNeeded db).deletedStats ∧
      cleanupTableCorrect db.runs runsTargetCount
        (checkAndCleanupIfNeeded db).runs
        (checkAndCleanupIfNeeded db).deletedRuns) := by
  unfold checkAndCleanupIfNeeded
  by_cases htrig : gossipTriggerCount < db.gossip.length ∨
      statsTriggerCount < db.stats.length ∨ runsTriggerCount < db.runs.length
  · rw [if_pos htrig]
    refine ⟨fun h1 h2 h3 => ?_, fun _ => ?_⟩
    · exfalso
      rw [gossipTriggerCount, statsTriggerCount, runsTriggerCount] at htrig
      omega
    · exact ⟨cleanupTable_correct db.gossip gossipTargetCount,
        cleanupTable_correct db.stats statsTargetCount,
        cleanupTable_correct db.runs runsTargetCount⟩
  · rw [if_neg htrig]
    refine ⟨fun _ _ _ => rfl, fun hc => absurd hc (by simp)⟩

/-- Witness for C3 at a concrete input: on the empty store nothing is
triggered and nothing is deleted. -/
theorem c3_cleanup_trigger_and_cutoff_witness :
    checkAndCleanupIfNeeded exCleanupEmpty =
      ⟨false, [], [], [], 0, 0, 0⟩ :=
  (c3_cleanup_trigger_and_cutoff exCleanupEmpty).1 (by decide) (by decide)
    (by decide)

/-- The `getStats` call log of a cycle, by projection. -/
theorem runIngestionCycle_rpcCalls (now : Int) (db0 : DB)
    (seeds : List SeedInput) (probe : String → Option GetStatsResult)
    (clock : String → Int) :
    (runIngestionCycle now db0 seeds probe clock).rpcCalls =
      (processProbeTasks now probe clock (stageBState now db0 seeds).1.db
        (cycleDedupTasks now db0 seeds)).2.2 := rfl

/-- The `statsAttempts` summary counter of a cycle, by projection. -/
theorem runIngestionCycle_statsAttempts (now : Int) (db0 : DB)
    (seeds : List SeedInput) (probe : String → Option GetStatsResult)
    (clock : String → Int) :
    (runIngestionCycle now db0 seeds probe clock).summary.statsAttempts =
      (cycleDedupTasks now db0 seeds).length := rfl

/-- The per-task results of a cycle, by projection. -/
theorem runIngestionCycle_statsResults (now : Int) (db0 : DB)
    (seeds : List SeedInput) (probe : String → Option GetStatsResult)
    (clock : String → Int) :
    (runIngestionCycle now db0 seeds probe clock).statsResults =
      (processProbeTasks now probe clock (stageBState now db0 seeds).1.db
        (cycleDedupTasks now db0 seeds)).2.1 := rfl

/-- The final store of a cycle, by projection. -/
theorem runIngestionCycle_db (now : Int) (db0 : DB)
    (seeds : List SeedInput) (probe : String → Option GetStatsResult)
    (clock : String → Int) :
    (runIngestionCycle now db0 seeds probe clock).db =
      (processProbeTasks now probe clock (stageBState now db0 seeds).1.db
        (cycleDedupTasks now db0 seeds)).1 := rfl

/-- The `totalPods` summary counter of a cycle, by projection. -/
theorem runIngestionCycle_totalPods (now : Int) (db0 : DB)
    (seeds : List SeedInput) (probe : String → Option GetStatsResult)
    (clock : String → Int) :
    (runIngestionCycle now db0 seeds probe clock).summary.totalPods =
      ((stageBState now db0 seeds).2.map (fun r => r.pods.length)).sum := rfl

/-- `gossipObs` always equals `totalPods`, by projection. -/
theorem runIngestionCycle_gossipObs (now : Int) (db0 : DB)
    (seeds : List SeedInput) (probe : String → Option GetStatsResult)
    (clock : String → Int) :
    (runIngestionCycle now db0 seeds probe clock).summary.gossipObs =
      (runIngestionCycle now db0 seeds probe clock).summary.totalPods := rfl

/-- Stage D issues exactly one `getStats` call per deduplicated task. -/
theorem processProbeTasks_log_length (now : Int)
    (probe : String → Option GetStatsResult) (clock : String → Int) :
    ∀ (tasks : List ProbeTask) (db : DB),
    (processProbeTasks now probe clock db tasks).2.2.length = tasks.length := by
  intro tasks
  induction tasks with
  | nil => intro db; rfl
  | cons t ts ih =>
    intro db
    simp only [processProbeTasks, List.length_cons, ih]

/-- The deduplication loop keeps one task per pnodeId not yet seen. -/
theorem dedupGo_length (l : List ProbeTask) : ∀ seen : List Nat,
    (dedupGo seen l).length =
      ((l.map ProbeTask.pnodeId).toFinset \ seen.toFinset).card := by
  induction l with
  | nil => intro seen; simp [dedupGo]
  | cons t ts ih =>
    intro seen
    by_cases h : t.pnodeId ∈ seen
    · simp only [dedupGo, if_pos h, List.map_cons, List.toFinset_cons]
      rw [ih seen, Finset.insert_sdiff_of_mem _ (List.mem_toFinset.mpr h)]
    · simp only [dedupGo, if_neg h, List.length_cons, List.map_cons,
        List.toFinset_cons]
      rw [ih (t.pnodeId :: seen)]
      by_cases hmem : t.pnodeId ∈ (ts.map ProbeTask.pnodeId).toFinset
      · rw [Finset.insert_eq_self.mpr hmem]
        rw [List.toFinset_cons, Finset.sdiff_insert]
        have h2 : t.pnodeId ∈ (ts.map ProbeTask.pnodeId).toFinset \ seen.toFinset :=
          Finset.mem_sdiff.mpr ⟨hmem, fun hc => h (List.mem_toFinset.mp hc)⟩
        rw [Finset.card_erase_of_mem h2]
        have hpos := Finset.card_pos.mpr ⟨_, h2⟩
        omega
      · rw [Finset.insert_sdiff_of_not_mem _
          (fun hc => h (List.mem_toFinset.mp hc))]
        rw [Finset.card_insert_of_not_mem
          (fun hc => hmem (Finset.mem_sdiff.mp hc).1)]
        rw [List.toFinset_cons, Finset.sdiff_insert,
          Finset.erase_eq_of_not_mem
            (fun hc => hmem (Finset.mem_sdiff.mp hc).1)]

/-- Stage C keeps exactly one task per distinct pnodeId. -/
theorem dedupFirst_length (l : List ProbeTask) :
    (dedupFirstByPnodeId l).length = (l.map ProbeTask.pnodeId).dedup.length := by
  rw [dedupFirstByPnodeId, dedupGo_length l []]
  simp [List.card_toFinset]

/-- C2: in every cycle the probe tasks are deduplicated by keeping the
first task per `pnodeId`, so the number of `getStats` calls issued in
Stage D equals the number of distinct pnodeIds among the eligible
(non-backed-off) Stage B tasks, and the summary's `statsAttempts` equals
that deduplicated call count. -/
theorem c2_dedup_exact (now : Int) (db0 : DB) (seeds : List SeedInput)
    (probe : String → Option GetStatsResult) (clock : String → Int) :
    (runIngestionCycle now db0 seeds probe clock).rpcCalls.length =
      ((cycleTasks now db0 seeds).map ProbeTask.pnodeId).dedup.length ∧
    (runIngestionCycle now db0 seeds probe clock).summary.statsAttempts =
      (runIngestionCycle now db0 seeds probe clock).rpcCalls.length := by
  have h1 : (runIngestionCycle now db0 seeds probe clock).rpcCalls.length =
      (cycleDedupTasks now db0 seeds).length := by
    rw [runIngestionCycle_rpcCalls]
    exact processProbeTasks_log_length now probe clock _ _
  constructor
  · rw [h1, cycleDedupTasks, dedupFirst_length]
  · rw [runIngestionCycle_statsAttempts, h1]

/-- A peer upsert leaves the gossip table unchanged. -/
theorem upsertPnode_gossip (db : DB) (pk : String) (b : Bool) :
    (upsertPnode db pk b).1.gossip = db.gossip := by
  unfold upsertPnode
  split <;> rfl

/-- A peer upsert leaves the stats samples unchanged. -/
theorem upsertPnode_samples (db : DB) (pk : String) (b : Bool) :
    (upsertPnode db pk b).1.samples = db.samples := by
  unfold upsertPnode
  split <;> rfl

/-- One Stage B pod branch writes exactly one gossip row and no stats
sample. -/
theorem processPod_db (now : Int) (u : String) (st : CycleState)
    (acc : SeedAcc) (pod : PodInfo) :
    (processPod now u st acc pod).1.db.gossip.length =
      st.db.gossip.length + 1 ∧
    (processPod now u st acc pod).1.db.samples = st.db.samples := by
  refine ⟨?_, ?_⟩ <;>
  · simp only [processPod]
    repeat' split
    all_goals simp [upsertPnode_gossip, upsertPnode_samples, updatePnodeById]

/-- The Stage B fold over one seed's pods writes one gossip row per pod
and no stats sample. -/
theorem processPods_fold_spec (now : Int) (u : String) :
    ∀ (pods : List PodInfo) (p : CycleState × SeedAcc),
    ((pods.foldl (fun (q : CycleState × SeedAcc) pod =>
        processPod now u q.1 q.2 pod) p).1.db.gossip.length =
      p.1.db.gossip.length + pods.length) ∧
    ((pods.foldl (fun (q : CycleState × SeedAcc) pod =>
        processPod now u q.1 q.2 pod) p).1.db.samples = p.1.db.samples) := by
  intro pods
  induction pods with
  | nil => intro p; exact ⟨rfl, rfl⟩
  | cons pod pods ih =>
    intro p
    simp only [List.foldl_cons, List.length_cons]
    have hp := processPod_db now u p.1 p.2 pod
    have hrest := ih (processPod now u p.1 p.2 pod)
    exact ⟨by rw [hrest.1, hp.1]; omega, by rw [hrest.2, hp.2]⟩

/-- One seed's Stage B branch writes one gossip row per listed pod that
carries a pubkey, writes no stats sample, and reports the full listed
pod array. -/
theorem processSeed_spec (now : Int) (st : CycleState) (seed : SeedInput) :
    ((processSeed now st seed).1.db.gossip.length =
      st.db.gossip.length +
        ((seedListedPods seed).filter podHasPubkey).length) ∧
    ((processSeed now st seed).1.db.samples = st.db.samples) ∧
    ((processSeed now st seed).2.pods = seedListedPods seed) := by
  unfold processSeed seedListedPods
  cases seed.podsResult with
  | none => exact ⟨by simp, rfl, rfl⟩
  | some res =>
    have h := processPods_fold_spec now seed.baseUrl
      ((normalizePods res).filter podHasPubkey) (st, ⟨0, 0, [], []⟩)
    exact ⟨h.1, h.2, rfl⟩

/-- Stage B over all seeds: gossip rows written equal the pubkey-carrying
pods listed, no stats sample is written, and the per-seed results carry
the listed pod counts. -/
theorem processSeeds_spec (now : Int) : ∀ (seeds : List SeedInput)
    (st : CycleState),
    ((processSeeds now st seeds).1.db.gossip.length =
      st.db.gossip.length +
        (seeds.map
          (fun s => ((seedListedPods s).filter podHasPubkey).length)).sum) ∧
    ((processSeeds now st seeds).1.db.samples = st.db.samples) ∧
    ((processSeeds now st seeds).2.map (fun r => r.pods.length) =
      seeds.map (fun s => (seedListedPods s).length)) := by
  intro seeds
  induction seeds with
  | nil => intro st; exact ⟨by simp [processSeeds], rfl, rfl⟩
  | cons s ss ih =>
    intro st
    have hseed := processSeed_spec now st s
    have hrest := ih (processSeed now st s).1
    simp only [processSeeds, List.map_cons, List.sum_cons]
    refine ⟨by rw [hrest.1, hseed.1]; omega,
      by rw [hrest.2.1, hseed.2.1], ?_⟩
    rw [hrest.2.2, hseed.2.2]

/-- A Stage D task never touches the gossip table. -/
theorem processProbeTask_gossip (now : Int)
    (probe : String → Option GetStatsResult) (clock : String → Int)
    (db : DB) (task : ProbeTask) :
    (processProbeTask now probe clock db task).1.gossip = db.gossip := by
  unfold processProbeTask updatePnodeById
  split <;> rfl

/-- Stage D never touches the gossip table. -/
theorem processProbeTasks_gossip (now : Int)
    (probe : String → Option GetStatsResult) (clock : String → Int) :
    ∀ (tasks : List ProbeTask) (db : DB),
    (processProbeTasks now probe clock db tasks).1.gossip = db.gossip := by
  intro tasks
  induction tasks with
  | nil => intro db; rfl
  | cons t ts ih =>
    intro db
    simp only [processProbeTasks]
    rw [ih, processProbeTask_gossip]

/-- C6, amended: `totalPods` and `gossipObs` both equal the total number
of pods listed across all seeds whose `getPods` call succeeded —
including pods without a pubkey — while the number of GossipObservation
rows written during the cycle equals the number of listed pods that carry
a pubkey.  The claimed equality between the counters and the rows written
therefore holds exactly when every listed pod has a pubkey. -/
theorem c6_amended_pod_counts (now : Int) (db0 : DB)
    (seeds : List SeedInput) (probe : String → Option GetStatsResult)
    (clock : String → Int) :
    (runIngestionCycle now db0 seeds probe clock).summary.totalPods =
      (seeds.map (fun s => (seedListedPods s).length)).sum ∧
    (runIngestionCycle now db0 seeds probe clock).summary.gossipObs =
      (runIngestionCycle now db0 seeds probe clock).summary.totalPods ∧
    (runIngestionCycle now db0 seeds probe clock).db.gossip.length =
      db0.gossip.length +
        (seeds.map
          (fun s => ((seedListedPods s).filter podHasPubkey).length)).sum := by
  have hB := processSeeds_spec now seeds
    ⟨resetStaleBackoffStates now db0, [], []⟩
  refine ⟨?_, runIngestionCycle_gossipObs now db0 seeds probe clock, ?_⟩
  · rw [runIngestionCycle_totalPods, stageBState]
    exact congrArg List.sum hB.2.2
  · rw [runIngestionCycle_db, processProbeTasks_gossip, stageBState]
    exact hB.1

/-- C6, counterexample: a seed listing a single pod with no pubkey makes
the cycle report `totalPods = 1` although no GossipObservation row is
written, so the summary counters do not equal the rows written. -/
theorem c6_pubkeyless_pod_counted :
    (runIngestionCycle 0 exEmptyDb [exSeedNoKey] exProbeFail
      exClock).summary.totalPods = 1 ∧
    (runIngestionCycle 0 exEmptyDb [exSeedNoKey] exProbeFail
      exClock).db.gossip.length = 0 :=
  ⟨rfl, rfl⟩

/-- Stages A and B never write a stats sample. -/
theorem stageB_samples (now : Int) (db0 : DB) (seeds : List SeedInput) :
    (stageBState now db0 seeds).1.db.samples = db0.samples :=
  (processSeeds_spec now seeds ⟨resetStaleBackoffStates now db0, [], []⟩).2.1

/-- A by-id update with an id-preserving patch keeps every stored peer
id stored. -/
theorem idMem_updatePnodeById (db : DB) (pid : Nat) (f : Pnode → Pnode)
    (hf : ∀ p, (f p).id = p.id) (x : Nat) (h : idMem db x) :
    idMem (updatePnodeById db pid f) x := by
  obtain ⟨p, hp, hpx⟩ := h
  refine ⟨if p.id = pid then f p else p, ?_, ?_⟩
  · exact List.mem_map_of_mem (fun q => if q.id = pid then f q else q) hp
  · split
    · rw [hf p, hpx]
    · exact hpx

/-- A peer upsert keeps every stored peer id stored. -/
theorem idMem_upsertPnode (db : DB) (pk : String) (b : Bool) (x : Nat)
    (h : idMem db x) : idMem (upsertPnode db pk b).1 x := by
  obtain ⟨p, hp, hpx⟩ := h
  unfold upsertPnode
  split
  · refine ⟨if p.pubkey = pk then { p with isPublic := b } else p, ?_, ?_⟩
    · exact List.mem_map_of_mem
        (fun q => if q.pubkey = pk then { q with isPublic := b } else q) hp
    · split <;> exact hpx
  · exact ⟨p, List.mem_append_left _ hp, hpx⟩

/-- The row an upsert returns is present in the store it returns. -/
theorem upsertPnode_self_mem (db : DB) (pk : String) (b : Bool) :
    idMem (upsertPnode db pk b).1 (upsertPnode db pk b).2.id := by
  unfold upsertPnode
  cases hfind : db.pnodes.find? (fun p => p.pubkey = pk) with
  | none =>
    exact ⟨_, List.mem_append_right _ (List.mem_singleton.mpr rfl), rfl⟩
  | some p =>
    have hpk : p.pubkey = pk := by simpa using List.find?_some hfind
    have himg := List.mem_map_of_mem
      (fun q => if q.pubkey = pk then { q with isPublic := b } else q)
      (List.mem_of_find?_eq_some hfind)
    have himg2 : ({ p with isPublic := b } : Pnode) ∈
        db.pnodes.map
          (fun q => if q.pubkey = pk then { q with isPublic := b } else q) := by
      simpa [hpk] using himg
    exact ⟨{ p with isPublic := b }, himg2, rfl⟩

/-- One Stage B pod branch keeps every stored peer id stored. -/
theorem idMem_processPod (now : Int) (u : String) (st : CycleState)
    (acc : SeedAcc) (pod : PodInfo) (x : Nat) (h : idMem st.db x) :
    idMem (processPod now u st acc pod).1.db x := by
  have hup : idMem (upsertPnode st.db (pod.pubkey.getD "")
      (pod.is_public.getD false)).1 x :=
    idMem_upsertPnode st.db _ _ x h
  simp only [processPod]
  repeat' split
  all_goals
    first
    | exact hup
    | exact idMem_updatePnodeById _ _
        (fun p => { p with failureCount := 0, nextStatsAllowedAt := none })
        (fun p => rfl) x hup

/-- Every task a Stage B pod branch appends refers to a peer row present
in the branch's final store. -/
theorem processPod_tasks_idMem (now : Int) (u : String) (st : CycleState)
    (acc : SeedAcc) (pod : PodInfo)
    (hacc : ∀ t ∈ acc.tasks, idMem st.db t.pnodeId) :
    ∀ t ∈ (processPod now u st acc pod).2.tasks,
      idMem (processPod now u st acc pod).1.db t.pnodeId := by
  intro t
  have hself : idMem (upsertPnode st.db (pod.pubkey.getD "")
      (pod.is_public.getD false)).1
      (upsertPnode st.db (pod.pubkey.getD "")
        (pod.is_public.getD false)).2.id :=
    upsertPnode_self_mem st.db _ _
  have hold : ∀ y, idMem st.db y →
      idMem (upsertPnode st.db (pod.pubkey.getD "")
        (pod.is_public.getD false)).1 y :=
    fun y hy => idMem_upsertPnode st.db _ _ y hy
  simp only [processPod]
  repeat' split
  all_goals intro ht
  all_goals
    first
    | exact hold t.pnodeId (hacc t ht)
    | exact idMem_updatePnodeById _ _
        (fun p => { p with failureCount := 0, nextStatsAllowedAt := none })
        (fun p => rfl) t.pnodeId (hold t.pnodeId (hacc t ht))
    | (rcases List.mem_append.mp ht with holdm | hnew
       · first
         | exact hold t.pnodeId (hacc t holdm)
         | exact idMem_updatePnodeById _ _
             (fun p => { p with failureCount := 0, nextStatsAllowedAt := none })
             (fun p => rfl) t.pnodeId (hold t.pnodeId (hacc t holdm))
       · have hteq := List.mem_singleton.mp hnew
         subst hteq
         first
         | exact hself
         | exact idMem_updatePnodeById _ _
             (fun p => { p with failureCount := 0, nextStatsAllowedAt := none })
             (fun p => rfl) _ hself)

/-- The Stage B fold keeps every stored peer id stored. -/
theorem idMem_processPods_fold (now : Int) (u : String) :
    ∀ (pods : List PodInfo) (p : CycleState × SeedAcc) (x : Nat),
    idMem p.1.db x →
    idMem ((pods.foldl (fun (q : CycleState × SeedAcc) pod =>
      processPod now u q.1 q.2 pod) p).1.db) x := by
  intro pods
  induction pods with
  | nil => intro p x h; exact h
  | cons pod pods ih =>
    intro p x h
    simp only [List.foldl_cons]
    exact ih (processPod now u p.1 p.2 pod) x
      (idMem_processPod now u p.1 p.2 pod x h)

/-- Every task collected by the Stage B fold refers to a stored peer
row. -/
theorem processPods_fold_tasks (now : Int) (u : String) :
    ∀ (pods : List PodInfo) (p : CycleState × SeedAcc),
    (∀ t ∈ p.2.tasks, idMem p.1.db t.pnodeId) →
    ∀ t ∈ (pods.foldl (fun (q : CycleState × SeedAcc) pod =>
        processPod now u q.1 q.2 pod) p).2.tasks,
      idMem ((pods.foldl (fun (q : CycleState × SeedAcc) pod =>
        processPod now u q.1 q.2 pod) p).1.db) t.pnodeId := by
  intro pods
  induction pods with
  | nil => intro p h; exact h
  | cons pod pods ih =>
    intro p h
    simp only [List.foldl_cons]
    exact ih (processPod now u p.1 p.2 pod)
      (processPod_tasks_idMem now u p.1 p.2 pod h)

/-- One seed's Stage B branch keeps every stored peer id stored. -/
theorem idMem_processSeed (now : Int) (st : CycleState) (seed : SeedInput)
    (x : Nat) (h : idMem st.db x) :
    idMem (processSeed now st seed).1.db x := by
  unfold processSeed
  cases seed.podsResult with
  | none => exact h
  | some res =>
    exact idMem_processPods_fold now seed.baseUrl
      ((normalizePods res).filter podHasPubkey) (st, ⟨0, 0, [], []⟩) x h

/-- Every task one seed reports refers to a row stored in the seed's
final store. -/
theorem processSeed_tasks (now : Int) (st : CycleState) (seed : SeedInput) :
    ∀ t ∈ (processSeed now st seed).2.statsTasks,
      idMem (processSeed now st seed).1.db t.pnodeId := by
  unfold processSeed
  cases seed.podsResult with
  | none => intro t ht; exact absurd ht (List.not_mem_nil t)
  | some res =>
    exact processPods_fold_tasks now seed.baseUrl
      ((normalizePods res).filter podHasPubkey) (st, ⟨0, 0, [], []⟩)
      (fun t ht => absurd ht (List.not_mem_nil t))

/-- Stage B over all seeds keeps every stored peer id stored. -/
theorem idMem_processSeeds (now : Int) : ∀ (seeds : List SeedInput)
    (st : CycleState) (x : Nat), idMem st.db x →
    idMem (processSeeds now st seeds).1.db x := by
  intro seeds
  induction seeds with
  | nil => intro st x h; exact h
  | cons s ss ih =>
    intro st x h
    simp only [processSeeds]
    exact ih (processSeed now st s).1 x (idMem_processSeed now st s x h)

/-- `allStatsTasks` distributes over the seed results. -/
theorem allStatsTasks_cons (r : SeedResult) (rs : List SeedResult) :
    allStatsTasks (r :: rs) = r.statsTasks ++ allStatsTasks rs := by
  simp [allStatsTasks]

/-- Every task collected across all seeds refers to a peer row present
in the Stage B final store. -/
theorem processSeeds_tasks (now : Int) : ∀ (seeds : List SeedInput)
    (st : CycleState),
    ∀ t ∈ allStatsTasks (processSeeds now st seeds).2,
      idMem (processSeeds now st seeds).1.db t.pnodeId := by
  intro seeds
  induction seeds with
  | nil => intro st t ht; exact absurd ht (List.not_mem_nil t)
  | cons s ss ih =>
    intro st t ht
    simp only [processSeeds] at ht ⊢
    rw [allStatsTasks_cons] at ht
    rcases List.mem_append.mp ht with h1 | h2
    · exact idMem_processSeeds now ss (processSeed now st s).1 t.pnodeId
        (processSeed_tasks now st s t h1)
    · exact ih (processSeed now st s).1 t h2

/-- Stage C deduplication only drops tasks. -/
theorem dedupGo_subset : ∀ (l : List ProbeTask) (seen : List Nat),
    ∀ t ∈ dedupGo seen l, t ∈ l := by
  intro l
  induction l with
  | nil => intro seen t ht; exact absurd ht (List.not_mem_nil t)
  | cons u us ih =>
    intro seen t ht
    by_cases h : u.pnodeId ∈ seen
    · rw [dedupGo, if_pos h] at ht
      exact List.mem_cons_of_mem u (ih seen t ht)
    · rw [dedupGo, if_neg h] at ht
      rcases List.mem_cons.mp ht with h1 | h2
      · exact h1 ▸ List.mem_cons_self u us
      · exact List.mem_cons_of_mem u (ih (u.pnodeId :: seen) t h2)

/-- After Stage C deduplication the pnodeIds are pairwise distinct (and
avoid the already-seen set). -/
theorem dedupGo_nodup : ∀ (l : List ProbeTask) (seen : List Nat),
    ((dedupGo seen l).map ProbeTask.pnodeId).Nodup ∧
    (∀ t ∈ dedupGo seen l, t.pnodeId ∉ seen) := by
  intro l
  induction l with
  | nil =>
    intro seen
    exact ⟨List.nodup_nil, fun t ht => absurd ht (List.not_mem_nil t)⟩
  | cons u us ih =>
    intro seen
    by_cases h : u.pnodeId ∈ seen
    · rw [dedupGo, if_pos h]
      exact ih seen
    · rw [dedupGo, if_neg h]
      refine ⟨?_, ?_⟩
      · rw [List.map_cons, List.nodup_cons]
        refine ⟨?_, (ih (u.pnodeId :: seen)).1⟩
        intro hmem
        rcases List.mem_map.mp hmem with ⟨v, hv, hvid⟩
        exact (ih (u.pnodeId :: seen)).2 v hv
          (hvid ▸ List.mem_cons_self u.pnodeId seen)
      · intro v hv
        rcases List.mem_cons.mp hv with h1 | h2
        · exact h1 ▸ h
        · intro hvs
          exact (ih (u.pnodeId :: seen)).2 v h2 (List.mem_cons_of_mem _ hvs)

/-- A by-id update rewrites the row a by-id lookup finds. -/
theorem find?_map_update (pid : Nat) (f : Pnode → Pnode)
    (hf : ∀ p, (f p).id = p.id) : ∀ (l : List Pnode),
    (l.map (fun q => if q.id = pid then f q else q)).find?
        (fun p => p.id = pid) =
      Option.map f (l.find? (fun p => p.id = pid)) := by
  intro l
  induction l with
  | nil => rfl
  | cons q qs ih =>
    by_cases hq : q.id = pid
    · simp only [List.map_cons, if_pos hq]
      rw [List.find?_cons_of_pos _ (by simp [hf, hq]),
        List.find?_cons_of_pos _ (by simp [hq])]
      rfl
    · simp only [List.map_cons, if_neg hq]
      rw [List.find?_cons_of_neg _ (by simp [hq]),
        List.find?_cons_of_neg _ (by simp [hq])]
      exact ih

/-- A by-id update with an id-preserving patch leaves lookups of other
ids unchanged. -/
theorem find?_map_update_other (pid' : Nat) (f : Pnode → Pnode)
    (hf : ∀ p, (f p).id = p.id) (pid : Nat) (hne : pid' ≠ pid) :
    ∀ (l : List Pnode),
    (l.map (fun q => if q.id = pid' then f q else q)).find?
        (fun p => p.id = pid) =
      l.find? (fun p => p.id = pid) := by
  intro l
  induction l with
  | nil => rfl
  | cons q qs ih =>
    by_cases hq : q.id = pid'
    · simp only [List.map_cons, if_pos hq]
      rw [List.find?_cons_of_neg _ (by simp [hf, hq]; omega),
        List.find?_cons_of_neg _ (by simp [hq]; omega)]
      exact ih
    · simp only [List.map_cons, if_neg hq]
      by_cases hqp : q.id = pid
      · rw [List.find?_cons_of_pos _ (by simp [hqp]),
          List.find?_cons_of_pos _ (by simp [hqp])]
      · rw [List.find?_cons_of_neg _ (by simp [hqp]),
          List.find?_cons_of_neg _ (by simp [hqp])]
        exact ih

/-- `findPnodeById` after `updatePnodeById` on the same id. -/
theorem findPnodeById_update_self (db : DB) (pid : Nat) (f : Pnode → Pnode)
    (hf : ∀ p, (f p).id = p.id) :
    findPnodeById (updatePnodeById db pid f) pid =
      Option.map f (findPnodeById db pid) :=
  find?_map_update pid f hf db.pnodes

/-- `findPnodeById` after `updatePnodeById` on a different id. -/
theorem findPnodeById_update_other (db : DB) (pid' : Nat)
    (f : Pnode → Pnode) (hf : ∀ p, (f p).id = p.id) (pid : Nat)
    (hne : pid' ≠ pid) :
    findPnodeById (updatePnodeById db pid' f) pid = findPnodeById db pid :=
  find?_map_update_other pid' f hf pid hne db.pnodes

/-- A stored peer id always has a row a by-id lookup finds. -/
theorem findPnodeById_isSome (db : DB) (pid : Nat) (h : idMem db pid) :
    ∃ p0, findPnodeById db pid = some p0 := by
  obtain ⟨p, hp, hpid⟩ := h
  have : (db.pnodes.find? (fun p => p.id = pid)).isSome = true :=
    List.find?_isSome.mpr ⟨p, hp, by simp [hpid]⟩
  exact Option.isSome_iff_exists.mp this

/-- Appending a sample of a different peer does not change a peer's
samples. -/
theorem samplesFor_append_other (db : DB) (row : StatsRow) (pid : Nat)
    (h : ¬ row.pnodeId = pid) :
    samplesFor { db with samples := db.samples ++ [row] } pid =
      samplesFor db pid := by
  simp [samplesFor, List.filter_append, h]

/-- A Stage D task's result always carries the task's pnodeId and the
failure count the task carried. -/
theorem processProbeTask_result (now : Int)
    (probe : String → Option GetStatsResult) (clock : String → Int)
    (db : DB) (task : ProbeTask) :
    (processProbeTask now probe clock db task).2.pnodeId = task.pnodeId ∧
    (processProbeTask now probe clock db task).2.failureCount =
      task.failureCount := by
  unfold processProbeTask
  cases probe task.statsBaseUrl <;> exact ⟨rfl, rfl⟩

/-- A Stage D task keeps every stored peer id stored. -/
theorem idMem_processProbeTask (now : Int)
    (probe : String → Option GetStatsResult) (clock : String → Int)
    (db : DB) (task : ProbeTask) (x : Nat) (h : idMem db x) :
    idMem (processProbeTask now probe clock db task).1 x := by
  unfold processProbeTask
  cases probe task.statsBaseUrl with
  | none =>
    exact idMem_updatePnodeById _ _
      (fun p =>
        { p with
            failureCount := task.failureCount + 1,
            lastStatsAttemptAt := some now,
            nextStatsAllowedAt :=
              some (now +
                (computeNextBackoff (task.failureCount + 1) : Int) * 1000) })
      (fun p => rfl) x h
  | some stats =>
    exact idMem_updatePnodeById _ _
      (fun p =>
        { p with
            failureCount := 0,
            lastStatsAttemptAt := some now,
            lastStatsSuccessAt := some now,
            nextStatsAllowedAt := some (now + 60 * 1000) })
      (fun p => rfl) x h

/-- What a Stage D task does to its own peer row: on success the row is
reset (`failureCount = 0`, `lastStatsSuccessAt = now`,
`nextStatsAllowedAt = now + 60 s`); on failure the failure count is
incremented, the exponential backoff is applied and the peer's samples
are untouched. -/
theorem processProbeTask_own (now : Int)
    (probe : String → Option GetStatsResult) (clock : String → Int)
    (db : DB) (task : ProbeTask) (hmem : idMem db task.pnodeId) :
    ∃ p, findPnodeById (processProbeTask now probe clock db task).1
        task.pnodeId = some p ∧
      ((processProbeTask now probe clock db task).2.success = true →
        p.failureCount = 0 ∧ p.lastStatsSuccessAt = some now ∧
        p.nextStatsAllowedAt = some (now + 60 * 1000)) ∧
      ((processProbeTask now probe clock db task).2.success = false →
        p.failureCount = task.failureCount + 1 ∧
        p.nextStatsAllowedAt =
          some (now + (computeNextBackoff (task.failureCount + 1) : Int) * 1000) ∧
        samplesFor (processProbeTask now probe clock db task).1
          task.pnodeId = samplesFor db task.pnodeId) := by
  obtain ⟨p0, hp0⟩ := findPnodeById_isSome db task.pnodeId hmem
  unfold processProbeTask
  cases hp : probe task.statsBaseUrl with
  | none =>
    have hupd := findPnodeById_update_self db task.pnodeId
      (fun p =>
        { p with
            failureCount := task.failureCount + 1,
            lastStatsAttemptAt := some now,
            nextStatsAllowedAt :=
              some (now +
                (computeNextBackoff (task.failureCount + 1) : Int) * 1000) })
      (fun p => rfl)
    rw [hp0] at hupd
    exact ⟨_, hupd, fun hs => absurd hs (by simp),
      fun _ => ⟨rfl, rfl, rfl⟩⟩
  | some stats =>
    have hupd := findPnodeById_update_self
      { db with samples := db.samples ++
          [⟨task.pnodeId, task.seedBaseUrl, clock task.statsBaseUrl,
            stats.uptime,
            (computePacketRates (latestSampleFor db task.pnodeId)
              stats.packets_received stats.packets_sent
              (clock task.statsBaseUrl)).1,
            (computePacketRates (latestSampleFor db task.pnodeId)
              stats.packets_received stats.packets_sent
              (clock task.statsBaseUrl)).2,
            stats.packets_received, stats.packets_sent, stats.total_bytes,
            stats.active_streams⟩] }
      task.pnodeId
      (fun p =>
        { p with
            failureCount := 0,
            lastStatsAttemptAt := some now,
            lastStatsSuccessAt := some now,
            nextStatsAllowedAt := some (now + 60 * 1000) })
      (fun p => rfl)
    rw [show findPnodeById { db with samples := db.samples ++
          [⟨task.pnodeId, task.seedBaseUrl, clock task.statsBaseUrl,
            stats.uptime,
            (computePacketRates (latestSampleFor db task.pnodeId)
              stats.packets_received stats.packets_sent
              (clock task.statsBaseUrl)).1,
            (computePacketRates (latestSampleFor db task.pnodeId)
              stats.packets_received stats.packets_sent
              (clock task.statsBaseUrl)).2,
            stats.packets_received, stats.packets_sent, stats.total_bytes,
            stats.active_streams⟩] } task.pnodeId =
        findPnodeById db task.pnodeId from rfl, hp0] at hupd
    exact ⟨_, hupd, fun _ => ⟨rfl, rfl, rfl⟩,
      fun hs => absurd hs (by simp)⟩

/-- A Stage D task leaves every other peer's row and samples
unchanged. -/
theorem processProbeTask_other (now : Int)
    (probe : String → Option GetStatsResult) (clock : String → Int)
    (db : DB) (task : ProbeTask) (pid : Nat) (hne : task.pnodeId ≠ pid) :
    findPnodeById (processProbeTask now probe clock db task).1 pid =
      findPnodeById db pid ∧
    samplesFor (processProbeTask now probe clock db task).1 pid =
      samplesFor db pid := by
  unfold processProbeTask
  cases hp : probe task.statsBaseUrl with
  | none =>
    exact ⟨findPnodeById_update_other db task.pnodeId
      (fun p =>
        { p with
            failureCount := task.failureCount + 1,
            lastStatsAttemptAt := some now,
            nextStatsAllowedAt :=
              some (now +
                (computeNextBackoff (task.failureCount + 1) : Int) * 1000) })
      (fun p => rfl) pid hne, rfl⟩
  | some stats =>
    constructor
    · exact findPnodeById_update_other
        { db with samples := db.samples ++
            [⟨task.pnodeId, task.seedBaseUrl, clock task.statsBaseUrl,
              stats.uptime,
              (computePacketRates (latestSampleFor db task.pnodeId)
                stats.packets_received stats.packets_sent
                (clock task.statsBaseUrl)).1,
              (computePacketRates (latestSampleFor db task.pnodeId)
                stats.packets_received stats.packets_sent
                (clock task.statsBaseUrl)).2,
              stats.packets_received, stats.packets_sent, stats.total_bytes,
              stats.active_streams⟩] }
        task.pnodeId
        (fun p =>
          { p with
              failureCount := 0,
              lastStatsAttemptAt := some now,
              lastStatsSuccessAt := some now,
              nextStatsAllowedAt := some (now + 60 * 1000) })
        (fun p => rfl) pid hne
    · show samplesFor (updatePnodeById
          { db with samples := db.samples ++
              [⟨task.pnodeId, task.seedBaseUrl, clock task.statsBaseUrl,
                stats.uptime,
                (computePacketRates (latestSampleFor db task.pnodeId)
                  stats.packets_received stats.packets_sent
                  (clock task.statsBaseUrl)).1,
                (computePacketRates (latestSampleFor db task.pnodeId)
                  stats.packets_received stats.packets_sent
                  (clock task.statsBaseUrl)).2,
                stats.packets_received, stats.packets_sent, stats.total_bytes,
                stats.active_streams⟩] }
          task.pnodeId
          (fun p =>
            { p with
                failureCount := 0,
                lastStatsAttemptAt := some now,
                lastStatsSuccessAt := some now,
                nextStatsAllowedAt := some (now + 60 * 1000) })) pid =
        samplesFor db pid
      exact samplesFor_append_other db _ pid hne

/-- The Stage D results carry exactly the tasks' pnodeIds, in order. -/
theorem processProbeTasks_pids (now : Int)
    (probe : String → Option GetStatsResult) (clock : String → Int) :
    ∀ (tasks : List ProbeTask) (db : DB),
    ((processProbeTasks now probe clock db tasks).2.1).map
        ProbeResult.pnodeId = tasks.map ProbeTask.pnodeId := by
  intro tasks
  induction tasks with
  | nil => intro db; rfl
  | cons t ts ih =>
    intro db
    simp only [processProbeTasks, List.map_cons]
    rw [ih, (processProbeTask_result now probe clock db t).1]

/-- Stage D leaves the row and samples of a peer none of its tasks
refers to unchanged. -/
theorem processProbeTasks_other (now : Int)
    (probe : String → Option GetStatsResult) (clock : String → Int) :
    ∀ (tasks : List ProbeTask) (db : DB) (pid : Nat),
    (∀ t ∈ tasks, t.pnodeId ≠ pid) →
    findPnodeById (processProbeTasks now probe clock db tasks).1 pid =
      findPnodeById db pid ∧
    samplesFor (processProbeTasks now probe clock db tasks).1 pid =
      samplesFor db pid := by
  intro tasks
  induction tasks with
  | nil => intro db pid _; exact ⟨rfl, rfl⟩
  | cons t ts ih =>
    intro db pid hne
    simp only [processProbeTasks]
    have h1 := processProbeTask_other now probe clock db t pid
      (hne t (List.mem_cons_self t ts))
    have h2 := ih (processProbeTask now probe clock db t).1 pid
      (fun u hu => hne u (List.mem_cons_of_mem t hu))
    exact ⟨h2.1.trans h1.1, h2.2.trans h1.2⟩

/-- The Stage D invariant: given pairwise-distinct task pnodeIds all
referring to stored peer rows, every task result is reflected in the
final store — a success leaves its peer reset with
`nextStatsAllowedAt = now + 60 s`, a recorded failure with prior count
`k` leaves its peer at `failureCount = k + 1` with the exponential
backoff and with its stats samples unchanged. -/
theorem processProbeTasks_results (now : Int)
    (probe : String → Option GetStatsResult) (clock : String → Int) :
    ∀ (tasks : List ProbeTask) (db : DB),
    ((tasks.map ProbeTask.pnodeId).Nodup) →
    (∀ t ∈ tasks, idMem db t.pnodeId) →
    ∀ r ∈ (processProbeTasks now probe clock db tasks).2.1,
      ∃ p, findPnodeById (processProbeTasks now probe clock db tasks).1
          r.pnodeId = some p ∧
        (r.success = true → p.failureCount = 0 ∧
          p.lastStatsSuccessAt = some now ∧
          p.nextStatsAllowedAt = some (now + 60 * 1000)) ∧
        (r.success = false → p.failureCount = r.failureCount + 1 ∧
          p.nextStatsAllowedAt =
            some (now +
              (computeNextBackoff (r.failureCount + 1) : Int) * 1000) ∧
          samplesFor (processProbeTasks now probe clock db tasks).1
            r.pnodeId = samplesFor db r.pnodeId) := by
  intro tasks
  induction tasks with
  | nil =>
    intro db _ _ r hr
    exact absurd hr (List.not_mem_nil r)
  | cons t ts ih =>
    intro db hnd hmem r hr
    rw [List.map_cons] at hnd
    have hnotin := (List.nodup_cons.mp hnd).1
    have hndts := (List.nodup_cons.mp hnd).2
    simp only [processProbeTasks] at hr ⊢
    rcases List.mem_cons.mp hr with hr1 | hr2
    · subst hr1
      have hres := processProbeTask_result now probe clock db t
      have hown := processProbeTask_own now probe clock db t
        (hmem t (List.mem_cons_self t ts))
      obtain ⟨p, hfind, hsucc, hfail⟩ := hown
      have hne : ∀ u ∈ ts, u.pnodeId ≠ t.pnodeId := by
        intro u hu he
        exact hnotin (he ▸ List.mem_map_of_mem ProbeTask.pnodeId hu)
      have hpres := processProbeTasks_other now probe clock ts
        (processProbeTask now probe clock db t).1 t.pnodeId hne
      refine ⟨p, ?_, ?_, ?_⟩
      · rw [hres.1, hpres.1]
        exact hfind
      · intro hs
        exact hsucc hs
      · intro hs
        obtain ⟨h1, h2, h3⟩ := hfail hs
        rw [hres.1, hres.2]
        exact ⟨h1, h2, hpres.2.trans h3⟩
    · have hmem1 : ∀ u ∈ ts,
          idMem (processProbeTask now probe clock db t).1 u.pnodeId :=
        fun u hu => idMem_processProbeTask now probe clock db t u.pnodeId
          (hmem u (List.mem_cons_of_mem t hu))
      obtain ⟨p, hfind, hsucc, hfail⟩ :=
        ih (processProbeTask now probe clock db t).1 hndts hmem1 r hr2
      refine ⟨p, hfind, hsucc, fun hs => ?_⟩
      obtain ⟨h1, h2, h3⟩ := hfail hs
      refine ⟨h1, h2, h3.trans ?_⟩
      have hrpid : r.pnodeId ∈ ts.map ProbeTask.pnodeId := by
        rw [← processProbeTasks_pids now probe clock ts
          (processProbeTask now probe clock db t).1]
        exact List.mem_map_of_mem ProbeResult.pnodeId hr2
      have hne : t.pnodeId ≠ r.pnodeId := fun he => hnotin (he ▸ hrpid)
      exact (processProbeTask_other now probe clock db t r.pnodeId hne).2

/-- C1: after an ingestion cycle, every peer whose deduplicated probe
task succeeded has `failureCount = 0`, `lastStatsSuccessAt` set to the
cycle start and `nextStatsAllowedAt` equal to the cycle start plus 60
seconds; every peer whose probe task failed with prior failure count `k`
has `failureCount = k + 1` and `nextStatsAllowedAt` equal to the cycle
start plus `60 · 2^min(k+1, 5)` seconds, and no StatsSample was inserted
for that peer during the cycle. -/
theorem c1_backoff_state_after_cycle (now : Int) (db0 : DB)
    (seeds : List SeedInput) (probe : String → Option GetStatsResult)
    (clock : String → Int) (r : ProbeResult)
    (hr : r ∈ (runIngestionCycle now db0 seeds probe clock).statsResults) :
    ∃ p, findPnodeById (runIngestionCycle now db0 seeds probe clock).db
        r.pnodeId = some p ∧
      (r.success = true → p.failureCount = 0 ∧
        p.lastStatsSuccessAt = some now ∧
        p.nextStatsAllowedAt = some (now + 60 * 1000)) ∧
      (r.success = false → p.failureCount = r.failureCount + 1 ∧
        p.nextStatsAllowedAt =
          some (now +
            ((60 * 2 ^ min (r.failureCount + 1) 5 : Nat) : Int) * 1000) ∧
        samplesFor (runIngestionCycle now db0 seeds probe clock).db
          r.pnodeId = samplesFor db0 r.pnodeId) := by
  rw [runIngestionCycle_statsResults] at hr
  rw [runIngestionCycle_db]
  have hnd : ((cycleDedupTasks now db0 seeds).map ProbeTask.pnodeId).Nodup :=
    (dedupGo_nodup (cycleTasks now db0 seeds) []).1
  have hmem : ∀ t ∈ cycleDedupTasks now db0 seeds,
      idMem (stageBState now db0 seeds).1.db t.pnodeId := by
    intro t ht
    exact processSeeds_tasks now seeds
      ⟨resetStaleBackoffStates now db0, [], []⟩ t
      (dedupGo_subset (cycleTasks now db0 seeds) [] t ht)
  obtain ⟨p, hfind, hsucc, hfail⟩ := processProbeTasks_results now probe
    clock (cycleDedupTasks now db0 seeds) (stageBState now db0 seeds).1.db
    hnd hmem r hr
  refine ⟨p, hfind, hsucc, fun hs => ?_⟩
  obtain ⟨h1, h2, h3⟩ := hfail hs
  refine ⟨h1, h2, h3.trans ?_⟩
  show samplesFor (stageBState now db0 seeds).1.db r.pnodeId =
    samplesFor db0 r.pnodeId
  unfold samplesFor
  rw [stageB_samples]

/-- Witness for C1 at a concrete input: one seed lists the single pod
`"A"`, its probe fails; the cycle records the failure result for the
freshly created peer 1, whose row ends with `failureCount = 1` and a
120-second backoff, and no sample inserted. -/
theorem c1_backoff_state_after_cycle_witness :
    exFailResult ∈ (runIngestionCycle 0 exEmptyDb [exSeedA] exProbeFail
      exClock).statsResults ∧
    (∃ p, findPnodeById
        (runIngestionCycle 0 exEmptyDb [exSeedA] exProbeFail exClock).db
        exFailResult.pnodeId = some p ∧
      (exFailResult.success = true → p.failureCount = 0 ∧
        p.lastStatsSuccessAt = some 0 ∧
        p.nextStatsAllowedAt = some (0 + 60 * 1000)) ∧
      (exFailResult.success = false →
        p.failureCount = exFailResult.failureCount + 1 ∧
        p.nextStatsAllowedAt =
          some (0 +
            ((60 * 2 ^ min (exFailResult.failureCount + 1) 5 : Nat) : Int) *
              1000) ∧
        samplesFor
          (runIngestionCycle 0 exEmptyDb [exSeedA] exProbeFail exClock).db
          exFailResult.pnodeId = samplesFor exEmptyDb exFailResult.pnodeId)) :=
  ⟨by decide,
    c1_backoff_state_after_cycle 0 exEmptyDb [exSeedA] exProbeFail exClock
      exFailResult (by decide)⟩

end IngestionWorker
